import Mathlib

/-!
Verification development for the agentic orchestration subsystem of the
OpenFintek chatbot repository: `app/services/agent_tools.py`,
`app/services/agent_orchestrator.py` and `app/services/query_decomposition.py`.

Python values, dicts and sets are embedded as inductive types and association
lists; Python numbers (int/float) are embedded as rationals; functions that can
raise are embedded as `Except String`-valued functions.  Each definition mirrors
one Python function and is named after it.
-/

/-! ### Python-value embedding and small utilities -/

/-- Embedding of the Python values the calculation/text tools manipulate.
`bool` is kept separate because Python `bool` is an `int` subclass and counts
as numeric for `isinstance(x, (int, float))`. -/
inductive PyVal where
  | int (n : Int)
  | float (q : ℚ)
  | bool (b : Bool)
  | str (s : String)
  | pylist (l : List PyVal)
  | pydict (entries : List (String × PyVal))

namespace PyVal

/-- Python `isinstance(x, (int, float))` (true for `bool` as well). -/
def isNumeric : PyVal → Bool
  | int _ => true
  | float _ => true
  | bool _ => true
  | _ => false

/-- Numeric value of a numeric `PyVal`, as a rational. -/
def toRat : PyVal → ℚ
  | int n => n
  | float q => q
  | bool b => if b then 1 else 0
  | _ => 0

/-- Python truthiness (`bool(x)`), as used by `if not data:` guards. -/
def truthy : PyVal → Bool
  | int n => n ≠ 0
  | float q => q ≠ 0
  | bool b => b
  | str s => s ≠ ""
  | pylist l => !l.isEmpty
  | pydict d => !d.isEmpty

end PyVal

/-- Python `x in s` membership of a character sequence `needle` starting at the
head of `hay` (helper for `containsSeq`). -/
def leadsSeq : List Char → List Char → Bool
  | [], _ => true
  | _ :: _, [] => false
  | a :: as, b :: bs => a = b && leadsSeq as bs

/-- Python substring test `needle in hay` on character lists. -/
def containsSeq (needle : List Char) : List Char → Bool
  | [] => leadsSeq needle []
  | c :: cs => leadsSeq needle (c :: cs) || containsSeq needle cs

/-- Python `needle in hay` on strings. -/
def strContains (hay needle : String) : Bool :=
  containsSeq needle.data hay.data

/-- Python `s.lower()`. -/
def strLower (s : String) : String :=
  ⟨s.data.map Char.toLower⟩

/-- Python set insertion `s.add(x)` for a set represented as a duplicate-free
list (order irrelevant; only membership and cardinality are consumed). -/
def setInsert (x : String) (s : List String) : List String :=
  if x ∈ s then s else s ++ [x]

/-- Python dict update `d[k] = v` for an insertion-ordered association list:
an existing key keeps its position, a new key is appended. -/
def dictInsert {α : Type} (k : String) (v : α) : List (String × α) → List (String × α)
  | [] => [(k, v)]
  | (k', v') :: rest =>
      if k' = k then (k, v) :: rest else (k', v') :: dictInsert k v rest

/-- Python dict lookup `d.get(k)`. -/
def dictGet {α : Type} (k : String) : List (String × α) → Option α
  | [] => none
  | (k', v) :: rest => if k' = k then some v else dictGet k rest

/-- Python `d[k] += 1` on an int-valued dict (the key is assumed present, as
the source guarantees for `tool_usage_stats`; a missing key is left alone where
Python would raise `KeyError`). -/
def dictIncr (k : String) : List (String × Nat) → List (String × Nat)
  | [] => []
  | (k', v) :: rest =>
      if k' = k then (k', v + 1) :: rest else (k', v) :: dictIncr k rest

/-! ### CalculationTool (`agent_tools.py`, class `CalculationTool`) -/

/-- Result dictionary of `CalculationTool._calculate_statistics`: it returns
either `{}`, or `{count: ...}`, or the full six-field statistics dict. -/
inductive StatsResult where
  | empty
  | countOnly (count : Nat)
  | full (count : Nat) (sum mean min max range : ℚ)
  deriving DecidableEq, Repr

/-- Python `min(l)` for a list of numbers (0 on the empty list, which the
source never reaches). -/
def listMinQ : List ℚ → ℚ
  | [] => 0
  | x :: xs => xs.foldl min x

/-- Python `max(l)` for a list of numbers (0 on the empty list, which the
source never reaches). -/
def listMaxQ : List ℚ → ℚ
  | [] => 0
  | x :: xs => xs.foldl max x

/-- `CalculationTool._calculate_statistics(data)`: `{}` on an empty list;
`{count: len(data)}` when no element is numeric; otherwise
count/sum/mean/min/max/range over the numeric subset. -/
def calculateStatistics (data : List PyVal) : StatsResult :=
  if data.isEmpty then .empty
  else
    let numericData := (data.filter PyVal.isNumeric).map PyVal.toRat
    if numericData.isEmpty then .countOnly data.length
    else
      .full numericData.length numericData.sum (numericData.sum / numericData.length)
        (listMinQ numericData) (listMaxQ numericData)
        (listMaxQ numericData - listMinQ numericData)

/-- The `operation == "statistics"` branch of `CalculationTool.execute`:
`data` must be present, truthy and a list (`if not data or not
isinstance(data, list): raise ToolExecutionError(...)`), after which
`_calculate_statistics` runs. -/
def calcStatisticsOp (data : Option PyVal) : Except String StatsResult :=
  match data with
  | some (PyVal.pylist l) =>
      if (PyVal.pylist l).truthy then .ok (calculateStatistics l)
      else .error "data list is required for statistics"
  | _ => .error "data list is required for statistics"

/-- The `operation == "count"` branch of `CalculationTool.execute`:
`if not data: raise`, then `len(data) if isinstance(data, (list, dict)) else 1`. -/
def calcCountOp (data : Option PyVal) : Except String Nat :=
  match data with
  | none => .error "data is required for count operation"
  | some v =>
      if v.truthy then
        .ok (match v with
             | PyVal.pylist l => l.length
             | PyVal.pydict d => d.length
             | _ => 1)
      else .error "data is required for count operation"

/-- Python `round(x, 2)`: round to two decimal places. -/
def round2 (q : ℚ) : ℚ :=
  (round (q * 100) : ℤ) / 100

/-- The `operation == "percentage"` branch of `CalculationTool.execute`:
`part` and `total` must both be present; `total == 0` yields `0`, otherwise
`(part/total)*100`; the result is passed through `round(result, 2)`. -/
def calcPercentageOp (part total : Option ℚ) : Except String ℚ :=
  match part, total with
  | some p, some t =>
      .ok (round2 (if t = 0 then 0 else (p / t) * 100))
  | _, _ => .error "part and total are required for percentage"

/-- Python length for the count operation (`len` for list/dict, else 1). -/
def pyCountLen : PyVal → Nat
  | PyVal.pylist l => l.length
  | PyVal.pydict d => d.length
  | _ => 1

/-! ### Tool registry (`agent_tools.py`, classes `AgentTool` and `ToolRegistry`) -/

/-- Shape of the dictionary returned by `AgentTool.safe_execute`: either
`{success: True, result: ...}` or `{success: False, error: ...}` (plus
`tool_name`; the timestamp field is not modelled). -/
structure ToolResult where
  success : Bool
  result : Option PyVal := none
  error : Option String := none
  toolName : String := ""

/-- A registered tool: its declared name, its per-tool `execution_count`, and
its domain logic `run` (the abstract `execute`), which may raise
(`Except.error`). -/
structure SimpleTool where
  name : String
  executionCount : Nat := 0
  run : List (String × PyVal) → Except String PyVal

/-- `AgentTool.safe_execute`: increments the tool's execution counter, runs the
domain logic, and converts both outcomes into a returned dictionary — an
exception is swallowed into `{success: False, error: str(e)}`, never
re-raised. -/
def safeExecute (t : SimpleTool) (params : List (String × PyVal)) :
    ToolResult × SimpleTool :=
  let t' := { t with executionCount := t.executionCount + 1 }
  match t.run params with
  | .ok r => ({ success := true, result := some r, toolName := t.name }, t')
  | .error e => ({ success := false, error := some e, toolName := t.name }, t')

/-- `ToolRegistry` state: the `tools` dict and the `tool_usage_stats` dict. -/
structure ToolRegistry where
  tools : List (String × SimpleTool) := []
  toolUsageStats : List (String × Nat) := []

/-- `ToolRegistry.__init__`: both dicts start empty. -/
def emptyRegistry : ToolRegistry := {}

/-- `ToolRegistry.register_tool`: stores the tool under its declared name and
resets its usage counter to zero. -/
def registerTool (r : ToolRegistry) (t : SimpleTool) : ToolRegistry :=
  { tools := dictInsert t.name t r.tools,
    toolUsageStats := dictInsert t.name 0 r.toolUsageStats }

/-- `ToolRegistry.get_tool`. -/
def getTool (r : ToolRegistry) (name : String) : Option SimpleTool :=
  dictGet name r.tools

/-- `ToolRegistry.get_tool_names`. -/
def getToolNames (r : ToolRegistry) : List String :=
  r.tools.map Prod.fst

/-- `ToolRegistry.get_usage_stats` (the returned copy, queried at one name). -/
def getUsageStats (r : ToolRegistry) : List (String × Nat) :=
  r.toolUsageStats

/-- `ToolRegistry.execute_tool`: raises `ToolExecutionError` when the name is
unregistered (before touching any counter); otherwise increments the usage
counter and calls the tool's `safe_execute`, whose result is returned. -/
def executeTool (r : ToolRegistry) (name : String) (params : List (String × PyVal)) :
    Except String (ToolResult × ToolRegistry) :=
  match getTool r name with
  | none => .error ("Tool '" ++ name ++ "' not found")
  | some t =>
      let stats' := dictIncr name r.toolUsageStats
      let (res, t') := safeExecute t params
      .ok (res, { tools := dictInsert name t' r.tools, toolUsageStats := stats' })

/-- N successive `execute_tool` calls on one name (each call threading the
registry state; a raised error leaves the registry unchanged, as in the
source, where the raise happens before any mutation). -/
def execToolN (name : String) (params : List (String × PyVal)) :
    Nat → ToolRegistry → ToolRegistry
  | 0, r => r
  | n + 1, r =>
      match executeTool r name params with
      | .ok (_, r') => execToolN name params n r'
      | .error _ => r

/-! ### Orchestrator data model (`agent_orchestrator.py`, `query_decomposition.py`) -/

/-- `TaskType` enum from `query_decomposition.py`. -/
inductive TaskType where
  | databaseQuery
  | calculation
  | textProcessing
  | responseSynthesis
  deriving DecidableEq, Repr

/-- `SubTask` dataclass from `query_decomposition.py` (its `__post_init__`
replaces a `None` dependency list by `[]`; the embedding always stores the
resolved list). -/
structure SubTask where
  id : String
  type : TaskType
  description : String
  toolName : String
  parameters : List (String × PyVal)
  dependencies : List String
  priority : Int

/-- `ExecutionStatus` enum from `agent_orchestrator.py`. -/
inductive ExecutionStatus where
  | pending
  | running
  | completed
  | failed
  | skipped
  deriving DecidableEq, Repr

/-- `TaskExecution` dataclass (timestamps omitted). -/
structure TaskExecution where
  task : SubTask
  status : ExecutionStatus := .pending
  result : Option ToolResult := none
  error : Option String := none
  retryCount : Nat := 0
  maxRetries : Nat := 3

/-- Mutable state of one run of
`AgentOrchestrator._execute_tasks_with_dependencies`: the plan's
`task_executions` list, the local variables `completed_tasks` (a set),
`running_tasks` (modelled by its ordered key list; the mapped asyncio tasks
are replaced by the scheduling environment below) and `results`, plus a step
counter `tick` consumed by the environment. -/
structure LoopState where
  execs : List TaskExecution
  completed : List String := []
  running : List String := []
  results : List (String × ToolResult) := []
  tick : Nat := 0

/-- Scheduling environment: at step `n` it chooses which in-flight task
finishes (an index into `running`, taken modulo its length — this models
`asyncio.wait(..., return_when=FIRST_COMPLETED)` delivering completions one at
a time in an arbitrary order) and what `await completed_task` produces:
`.ok` is a returned tool dictionary, `.error` is a raised exception. -/
def SchedEnv : Type := Nat → Nat × Except String ToolResult

/-- Replace the first element satisfying `p` (the object found by
`next(te for te in ... if te.task.id == task_id)`, which the source then
mutates in place). -/
def updateFirst {α : Type} (p : α → Bool) (f : α → α) : List α → List α
  | [] => []
  | x :: xs => if p x then f x :: xs else x :: updateFirst p f xs

/-- Stable insertion of one task into a descending-priority list (helper for
`sorted(..., reverse=True)`, which is a stable descending sort). -/
def insertDesc (x : TaskExecution) : List TaskExecution → List TaskExecution
  | [] => [x]
  | y :: ys => if x.task.priority ≤ y.task.priority then y :: insertDesc x ys
               else x :: y :: ys

/-- Python `ready.sort(key=lambda te: te.task.priority, reverse=True)`:
stable, descending by priority. -/
def sortDesc (l : List TaskExecution) : List TaskExecution :=
  l.foldl (fun acc x => insertDesc x acc) []

/-- `AgentOrchestrator._get_ready_tasks`: tasks that are not
completed/failed, not currently running, and whose every dependency id is in
the completed set; sorted by descending priority. -/
def getReadyTasks (s : LoopState) : List TaskExecution :=
  sortDesc (s.execs.filter (fun te =>
    !(te.status == .completed || te.status == .failed
        || s.running.contains te.task.id)
    && te.task.dependencies.all (fun d => s.completed.contains d)))

/-- Starting one ready task (loop lines: create the asyncio task, put it in
`running_tasks` under the task id, set the status to `RUNNING`). -/
def startTask (te : TaskExecution) (s : LoopState) : LoopState :=
  { s with
    execs := updateFirst (fun e => e.task.id == te.task.id)
      (fun e => { e with status := .running }) s.execs,
    running := if s.running.contains te.task.id then s.running
               else s.running ++ [te.task.id] }

/-- The inner `while len(running_tasks) < self.max_concurrent_tasks and
ready_tasks:` loop.  Returns the micro-states after each start, the ready
tasks left unstarted, and the final state. -/
def startPhase (maxC : Nat) :
    List TaskExecution → LoopState → List LoopState × List TaskExecution × LoopState
  | [], s => ([], [], s)
  | te :: rest, s =>
      if s.running.length < maxC then
        let s' := startTask te s
        let (tr, rem, sf) := startPhase maxC rest s'
        (s' :: tr, rem, sf)
      else ([], te :: rest, s)

/-- Processing one completed in-flight task (loop lines 184–226): on a
returned result, record it, mark the execution `COMPLETED` and add the id to
the completed set; on a raised exception, record the error and either requeue
(`PENDING`, `retry_count += 1`) or mark terminal `FAILED` and add the id to
the completed set; in all cases the id leaves `running_tasks`.  The `[]` and
`find? = none` cases are unreachable under the loop's invariants (the source
would respectively skip the wait or raise `StopIteration`). -/
def finishTask (env : SchedEnv) (s : LoopState) : LoopState :=
  if s.running.isEmpty then s
  else
    let taskId := s.running.getD ((env s.tick).1 % s.running.length) ""
    match (env s.tick).2 with
    | .ok res =>
        { execs := updateFirst (fun te => te.task.id == taskId)
            (fun te => { te with status := .completed, result := some res }) s.execs,
          completed := setInsert taskId s.completed,
          running := s.running.erase taskId,
          results := dictInsert taskId res s.results,
          tick := s.tick + 1 }
    | .error e =>
        match s.execs.find? (fun te => te.task.id == taskId) with
        | none => { s with running := s.running.erase taskId, tick := s.tick + 1 }
        | some te =>
            if te.retryCount < te.maxRetries then
              { s with
                execs := updateFirst (fun t => t.task.id == taskId)
                  (fun t => { t with status := .pending, error := some e,
                                     retryCount := t.retryCount + 1 }) s.execs,
                running := s.running.erase taskId,
                tick := s.tick + 1 }
            else
              { s with
                execs := updateFirst (fun t => t.task.id == taskId)
                  (fun t => { t with status := .failed, error := some e }) s.execs,
                completed := setInsert taskId s.completed,
                running := s.running.erase taskId,
                tick := s.tick + 1 }

/-- One iteration of the outer `while` loop: compute the ready list, start
tasks up to the concurrency ceiling, then either wait for a completion or,
with nothing running and nothing ready, hit the deadlock `break` (flag
`false`).  Returns the micro-states produced during the iteration, the end
state, and whether the loop continues. -/
def loopBody (maxC : Nat) (env : SchedEnv) (s : LoopState) :
    List LoopState × LoopState × Bool :=
  let (tr, rem, s1) := startPhase maxC (getReadyTasks s) s
  if s1.running.isEmpty then
    if rem.isEmpty then (tr, s1, false)
    else (tr, s1, true)
  else
    let s2 := finishTask env s1
    (tr ++ [s2], s2, true)

/-- The outer `while len(completed_tasks) < len(self.task_executions):` loop,
run with explicit fuel.  Returns all micro-states, the final state, and `true`
when the loop exited (by its condition or by the deadlock `break`) rather than
running out of fuel. -/
def runLoop (maxC : Nat) (env : SchedEnv) : Nat → LoopState → List LoopState × LoopState × Bool
  | 0, s => ([], s, false)
  | fuel + 1, s =>
      if s.execs.length ≤ s.completed.length then ([], s, true)
      else
        let (tr, s1, cont) := loopBody maxC env s
        if cont then
          let (tr2, s2, fin) := runLoop maxC env fuel s1
          (tr ++ tr2, s2, fin)
        else (tr, s1, true)

/-- `ExecutionPlan.__post_init__`: one fresh `TaskExecution` per sub-task;
`completed_tasks`, `running_tasks` and `results` start empty. -/
def initState (tasks : List SubTask) : LoopState :=
  { execs := tasks.map (fun t => { task := t }) }

/-- The `tasks_executed` count of the success result of
`execute_query_plan`: the number of `COMPLETED` task executions. -/
def tasksExecuted (s : LoopState) : Nat :=
  (s.execs.filter (fun te => te.status == .completed)).length

/-- One entry of the `successful_results` list built by
`_synthesize_results`. -/
structure SynthesisItem where
  taskId : String
  taskDescription : String
  result : Option PyVal

/-- The `successful_results` list of `_synthesize_results`: only task
executions that are `COMPLETED`, have a recorded result, and whose result has
a truthy `success` field contribute to the synthesis input. -/
def successfulResults (execs : List TaskExecution) : List SynthesisItem :=
  execs.filterMap (fun te =>
    match te.result with
    | some r =>
        if te.status == .completed && r.success then
          some ⟨te.task.id, te.task.description, r.result⟩
        else none
    | none => none)

/-- All states observed during a run: the initial state plus every
micro-state (after each task start and after each completion). -/
def observedStates (maxC : Nat) (env : SchedEnv) (fuel : Nat) (s : LoopState) :
    List LoopState :=
  s :: (runLoop maxC env fuel s).1

/-! ### Query analyzer and decomposer (`query_decomposition.py`) -/

/-- `QueryType` enum. -/
inductive QueryType where
  | simpleInformational
  | singleEntityLookup
  | multiEntityLookup
  | comparativeAnalysis
  | analyticalAggregation
  | complexMultiStep
  deriving DecidableEq, Repr

/-- The `complexity_indicators["comparative"]` keyword list. -/
def comparativeWords : List String :=
  ["compare", "comparison", "versus", "vs", "difference between", "better than"]

/-- The `complexity_indicators["analytical"]` keyword list. -/
def analyticalWords : List String :=
  ["statistics", "analytics", "total", "count", "how many", "all", "list all"]

/-- The `complexity_indicators["temporal"]` keyword list. -/
def temporalWords : List String :=
  ["last month", "this year", "since", "until", "between dates", "history"]

/-- The `complexity_indicators["aggregative"]` keyword list. -/
def aggregativeWords : List String :=
  ["summary", "overview", "report", "breakdown", "analysis"]

/-- The `complexity_indicators["multi_entity"]` keyword list. -/
def multiEntityWords : List String :=
  ["and", "or", "both", "either", "multiple", "several"]

/-- The `complexity_indicators["conditional"]` keyword list. -/
def conditionalWords : List String :=
  ["if", "when", "where", "in case", "depending on"]

/-- The `complexity_indicators["relational"]` keyword list. -/
def relationalWords : List String :=
  ["related to", "associated with", "linked to", "connected"]

/-- The `complexity_indicators["lookup"]` keyword list. -/
def lookupWords : List String :=
  ["what is", "who is", "where is", "show me", "find"]

/-- The `complexity_indicators["status"]` keyword list. -/
def statusWords : List String :=
  ["status of", "state of", "current", "now"]

/-- `sum(1 for indicator in indicators if indicator in query_lower)`. -/
def countMatches (ws : List String) (q : String) : Nat :=
  (ws.filter (fun w => strContains q w)).length

/-- Python `query.split()`: split on whitespace, dropping empty pieces. -/
def pyWords (s : String) : List (List Char) :=
  (s.data.splitOnP (fun c => c.isWhitespace)).filter (fun w => !w.isEmpty)

/-- Python `s.strip()` on a character list. -/
def pyStrip (w : List Char) : List Char :=
  ((w.dropWhile Char.isWhitespace).reverse.dropWhile Char.isWhitespace).reverse

/-- `len([s for s in query.split('.') if s.strip()])`. -/
def sentenceCount (s : String) : Nat :=
  ((s.data.splitOn '.').filter (fun seg => !(pyStrip seg).isEmpty)).length

/-- The accumulated `complexity_score` of `QueryAnalyzer.analyze_query`,
uncapped, in half-points (every weight in the source — 3.0, 2.0, 1.0, the
+2.0/+1.0 word-count bonuses and the 1.5-per-sentence bonus — is a multiple
of 0.5, and Python float arithmetic on these small half-integers is exact, so
doubling everything gives an equivalent integer computation). -/
def rawHalfScore (query : String) : Nat :=
  let q := strLower query
  let keywordHalf :=
    6 * (countMatches comparativeWords q + countMatches analyticalWords q
          + countMatches temporalWords q + countMatches aggregativeWords q)
    + 4 * (countMatches multiEntityWords q + countMatches conditionalWords q
          + countMatches relationalWords q)
    + 2 * (countMatches lookupWords q + countMatches statusWords q)
  let wc := (pyWords query).length
  let wordHalf := if wc > 15 then 4 else if wc > 10 then 2 else 0
  let sc := sentenceCount query
  let sentenceHalf := if sc > 1 then 3 * sc else 0
  keywordHalf + wordHalf + sentenceHalf

/-- `QueryAnalyzer._classify_query_type` (first match wins; the score handed
to it by `analyze_query` is the uncapped one, represented in half-points:
`> 5.0`, `> 6.0`, `> 3.0` become `> 10`, `> 12`, `> 6`). -/
def classifyQueryType (q : String) (halfScore : Nat) : QueryType :=
  if comparativeWords.any (fun w => strContains q w) then .comparativeAnalysis
  else if analyticalWords.any (fun w => strContains q w) then
    (if halfScore > 10 then .complexMultiStep else .analyticalAggregation)
  else if multiEntityWords.any (fun w => strContains q w) then .multiEntityLookup
  else if lookupWords.any (fun w => strContains q w) then .singleEntityLookup
  else if halfScore > 12 then .complexMultiStep
  else if halfScore > 6 then .multiEntityLookup
  else .simpleInformational

/-- `QueryAnalyzer.analyze_query`: the classified type and the capped
half-score (`min(complexity_score, 10.0)`, i.e. `min · 20` in half-points). -/
def analyzeQuery (query : String) : QueryType × Nat :=
  let raw := rawHalfScore query
  (classifyQueryType (strLower query) raw, min raw 20)

/-- Decimal digit character. -/
def digitChar : Nat → Char
  | 0 => '0' | 1 => '1' | 2 => '2' | 3 => '3' | 4 => '4'
  | 5 => '5' | 6 => '6' | 7 => '7' | 8 => '8' | _ => '9'

/-- Decimal digits of a natural number (fuel-structured so that it reduces). -/
def natDigitsAux : Nat → Nat → List Char
  | 0, _ => []
  | fuel + 1, n => if n < 10 then [digitChar n] else natDigitsAux fuel (n / 10) ++ [digitChar (n % 10)]

/-- Decimal rendering of a natural number. -/
def natToString (n : Nat) : String :=
  ⟨natDigitsAux (n + 1) n⟩

/-- Python `f"{n:03d}"`. -/
def pad3 (n : Nat) : String :=
  if n < 10 then "00" ++ natToString n
  else if n < 100 then "0" ++ natToString n
  else natToString n

/-- `QueryDecomposer._generate_task_id`: increments the instance counter and
renders `f"task_{counter:03d}"`.  The counter is the decomposer's only piece
of mutable state and is NOT reset between `decompose_query` calls. -/
def generateTaskId (counter : Nat) : Nat × String :=
  (counter + 1, "task_" ++ pad3 (counter + 1))

/-- `QueryDecomposition` dataclass (scores and time estimates as rationals). -/
structure QueryDecomposition where
  originalQuery : String
  queryType : QueryType
  complexityScore : ℚ
  subTasks : List SubTask
  expectedResponseFormat : String
  estimatedExecutionTime : ℚ

/-- `QueryDecomposer._decompose_simple_query`.  Note the hard-coded
`dependencies=["task_001"]` of the second task, against freshly generated
ids. -/
def decomposeSimpleQuery (query : String) (c0 : Nat) : List SubTask × Nat :=
  let (c1, id1) := generateTaskId c0
  let (c2, id2) := generateTaskId c1
  ([{ id := id1, type := .textProcessing,
      description := "Extract key information from query",
      toolName := "text_processing",
      parameters := [("operation", PyVal.str "extract_keywords"),
                     ("text", PyVal.str query)],
      dependencies := [], priority := 1 },
    { id := id2, type := .responseSynthesis,
      description := "Generate conversational response",
      toolName := "text_processing",
      parameters := [("operation", PyVal.str "format_response"),
                     ("text", PyVal.str query),
                     ("format_type", PyVal.str "default")],
      dependencies := ["task_001"], priority := 2 }], c2)

/-- `QueryDecomposer._decompose_lookup_query` (dependencies hard-coded to
`["task_001"]` / `["task_002"]`). -/
def decomposeLookupQuery (query : String) (c0 : Nat) : List SubTask × Nat :=
  let (c1, id1) := generateTaskId c0
  let entitiesTask : SubTask :=
    { id := id1, type := .textProcessing,
      description := "Extract entities from query",
      toolName := "text_processing",
      parameters := [("operation", PyVal.str "extract_entities"),
                     ("text", PyVal.str query)],
      dependencies := [], priority := 1 }
  let ql := strLower query
  let (c2, id2) := generateTaskId c1
  let dbTask : SubTask :=
    if ["order", "pedido", "purchase"].any (fun w => strContains ql w) then
      { id := id2, type := .databaseQuery, description := "Lookup order information",
        toolName := "database_query",
        parameters := [("query_type", PyVal.str "order_lookup"),
                       ("params", PyVal.pydict [])],
        dependencies := ["task_001"], priority := 2 }
    else if ["product", "producto", "item"].any (fun w => strContains ql w) then
      { id := id2, type := .databaseQuery, description := "Search for products",
        toolName := "database_query",
        parameters := [("query_type", PyVal.str "product_search"),
                       ("params", PyVal.pydict [])],
        dependencies := ["task_001"], priority := 2 }
    else
      { id := id2, type := .databaseQuery, description := "Get company information",
        toolName := "database_query",
        parameters := [("query_type", PyVal.str "company_policies"),
                       ("params", PyVal.pydict [])],
        dependencies := ["task_001"], priority := 2 }
  let (c3, id3) := generateTaskId c2
  let synthesisTask : SubTask :=
    { id := id3, type := .responseSynthesis,
      description := "Format structured response",
      toolName := "text_processing",
      parameters := [("operation", PyVal.str "format_response"),
                     ("format_type", PyVal.str "structured")],
      dependencies := ["task_002"], priority := 3 }
  ([entitiesTask, dbTask, synthesisTask], c3)

/-- `QueryDecomposer._decompose_multi_lookup_query` (the data tasks depend on
the hard-coded `"task_001"`; the synthesis task depends on the actual ids of
the data tasks). -/
def decomposeMultiLookupQuery (query : String) (c0 : Nat) : List SubTask × Nat :=
  let (c1, id1) := generateTaskId c0
  let extractionTask : SubTask :=
    { id := id1, type := .textProcessing,
      description := "Extract multiple entities and keywords",
      toolName := "text_processing",
      parameters := [("operation", PyVal.str "extract_keywords"),
                     ("text", PyVal.str query)],
      dependencies := [], priority := 1 }
  let ql := strLower query
  let mkDb := fun (id : String) (descr qt : String) =>
    ({ id := id, type := .databaseQuery, description := descr,
       toolName := "database_query",
       parameters := [("query_type", PyVal.str qt), ("params", PyVal.pydict [])],
       dependencies := ["task_001"], priority := 2 } : SubTask)
  let (c2, dbTasks1) :=
    if ["customer", "cliente"].any (fun w => strContains ql w) then
      let (c', id') := generateTaskId c1
      (c', [mkDb id' "Get customer data" "customer_analytics"])
    else (c1, [])
  let (c3, dbTasks2) :=
    if ["order", "pedido"].any (fun w => strContains ql w) then
      let (c', id') := generateTaskId c2
      (c', dbTasks1 ++ [mkDb id' "Get order data" "order_analytics"])
    else (c2, dbTasks1)
  let (c4, dbTasks3) :=
    if ["product", "producto"].any (fun w => strContains ql w) then
      let (c', id') := generateTaskId c3
      (c', dbTasks2 ++ [mkDb id' "Get product data" "product_analytics"])
    else (c3, dbTasks2)
  let (c5, dbTasks) :=
    if dbTasks3.isEmpty then
      let (c', id') := generateTaskId c4
      (c', [mkDb id' "Get business summary" "business_summary"])
    else (c4, dbTasks3)
  let (c6, id6) := generateTaskId c5
  let synthesisTask : SubTask :=
    { id := id6, type := .responseSynthesis,
      description := "Combine multiple data sources",
      toolName := "text_processing",
      parameters := [("operation", PyVal.str "format_response"),
                     ("format_type", PyVal.str "structured_list")],
      dependencies := dbTasks.map SubTask.id, priority := 3 }
  (extractionTask :: dbTasks ++ [synthesisTask], c6)

/-- `QueryDecomposer._decompose_comparative_query` (all dependencies
hard-coded: `task_001` twice, then `["task_002","task_003"]`, then
`["task_004"]`). -/
def decomposeComparativeQuery (query : String) (c0 : Nat) : List SubTask × Nat :=
  let (c1, id1) := generateTaskId c0
  let (c2, id2) := generateTaskId c1
  let (c3, id3) := generateTaskId c2
  let (c4, id4) := generateTaskId c3
  let (c5, id5) := generateTaskId c4
  ([{ id := id1, type := .textProcessing,
      description := "Extract comparison entities",
      toolName := "text_processing",
      parameters := [("operation", PyVal.str "extract_keywords"),
                     ("text", PyVal.str query)],
      dependencies := [], priority := 1 },
    { id := id2, type := .databaseQuery,
      description := "Get first comparison dataset",
      toolName := "database_query",
      parameters := [("query_type", PyVal.str "business_summary"),
                     ("params", PyVal.pydict [])],
      dependencies := ["task_001"], priority := 2 },
    { id := id3, type := .databaseQuery,
      description := "Get second comparison dataset",
      toolName := "database_query",
      parameters := [("query_type", PyVal.str "business_summary"),
                     ("params", PyVal.pydict [])],
      dependencies := ["task_001"], priority := 2 },
    { id := id4, type := .calculation,
      description := "Calculate comparison metrics",
      toolName := "calculation",
      parameters := [("operation", PyVal.str "statistics"),
                     ("data", PyVal.pylist [])],
      dependencies := ["task_002", "task_003"], priority := 3 },
    { id := id5, type := .responseSynthesis,
      description := "Format comparison table",
      toolName := "text_processing",
      parameters := [("operation", PyVal.str "format_response"),
                     ("format_type", PyVal.str "comparison_table")],
      dependencies := ["task_004"], priority := 4 }], c5)

/-- `QueryDecomposer._decompose_analytical_query` (dependency chain hard-coded
as `task_001` → `task_002` → `task_003`). -/
def decomposeAnalyticalQuery (query : String) (c0 : Nat) : List SubTask × Nat :=
  let (c1, id1) := generateTaskId c0
  let (c2, id2) := generateTaskId c1
  let (c3, id3) := generateTaskId c2
  let (c4, id4) := generateTaskId c3
  ([{ id := id1, type := .textProcessing,
      description := "Extract analytical requirements",
      toolName := "text_processing",
      parameters := [("operation", PyVal.str "extract_keywords"),
                     ("text", PyVal.str query)],
      dependencies := [], priority := 1 },
    { id := id2, type := .databaseQuery,
      description := "Get analytical data",
      toolName := "database_query",
      parameters := [("query_type", PyVal.str "business_summary"),
                     ("params", PyVal.pydict [])],
      dependencies := ["task_001"], priority := 2 },
    { id := id3, type := .calculation,
      description := "Calculate statistical metrics",
      toolName := "calculation",
      parameters := [("operation", PyVal.str "statistics"),
                     ("data", PyVal.pylist [])],
      dependencies := ["task_002"], priority := 3 },
    { id := id4, type := .responseSynthesis,
      description := "Generate analytical report",
      toolName := "text_processing",
      parameters := [("operation", PyVal.str "format_response"),
                     ("format_type", PyVal.str "analytical_report")],
      dependencies := ["task_003"], priority := 4 }], c4)

/-- `QueryDecomposer._heuristic_complex_decomposition` — also the behaviour of
`_decompose_complex_query` whenever no LLM is configured/available or the
LLM call or its JSON parsing fails (the LLM-backed branch performs external
I/O and is modelled by this deterministic fallback). -/
def decomposeComplexQuery (query : String) (c0 : Nat) : List SubTask × Nat :=
  let (c1, id1) := generateTaskId c0
  let (c2, id2) := generateTaskId c1
  let (c3, id3) := generateTaskId c2
  let (c4, id4) := generateTaskId c3
  ([{ id := id1, type := .textProcessing,
      description := "Extract all entities and keywords",
      toolName := "text_processing",
      parameters := [("operation", PyVal.str "extract_entities"),
                     ("text", PyVal.str query)],
      dependencies := [], priority := 1 },
    { id := id2, type := .databaseQuery,
      description := "Get comprehensive business data",
      toolName := "database_query",
      parameters := [("query_type", PyVal.str "business_summary"),
                     ("params", PyVal.pydict [])],
      dependencies := ["task_001"], priority := 2 },
    { id := id3, type := .calculation,
      description := "Perform comprehensive analysis",
      toolName := "calculation",
      parameters := [("operation", PyVal.str "statistics"),
                     ("data", PyVal.pylist [])],
      dependencies := ["task_002"], priority := 3 },
    { id := id4, type := .responseSynthesis,
      description := "Generate comprehensive report",
      toolName := "text_processing",
      parameters := [("operation", PyVal.str "format_response"),
                     ("format_type", PyVal.str "comprehensive_report")],
      dependencies := ["task_003"], priority := 4 }], c4)

/-- `QueryDecomposer.decompose_query`: classify, pick the per-type strategy,
and package the result; threads the instance's `task_id_counter`. -/
def decomposeQuery (query : String) (c0 : Nat) : QueryDecomposition × Nat :=
  let (qt, halfScore) := analyzeQuery query
  let score : ℚ := (halfScore : ℚ) / 2
  match qt with
  | .simpleInformational =>
      let (ts, c) := decomposeSimpleQuery query c0
      ({ originalQuery := query, queryType := qt, complexityScore := score,
         subTasks := ts, expectedResponseFormat := "conversational",
         estimatedExecutionTime := 1 }, c)
  | .singleEntityLookup =>
      let (ts, c) := decomposeLookupQuery query c0
      ({ originalQuery := query, queryType := qt, complexityScore := score,
         subTasks := ts, expectedResponseFormat := "structured",
         estimatedExecutionTime := 2 }, c)
  | .multiEntityLookup =>
      let (ts, c) := decomposeMultiLookupQuery query c0
      ({ originalQuery := query, queryType := qt, complexityScore := score,
         subTasks := ts, expectedResponseFormat := "structured_list",
         estimatedExecutionTime := 3 }, c)
  | .comparativeAnalysis =>
      let (ts, c) := decomposeComparativeQuery query c0
      ({ originalQuery := query, queryType := qt, complexityScore := score,
         subTasks := ts, expectedResponseFormat := "comparison_table",
         estimatedExecutionTime := 4 }, c)
  | .analyticalAggregation =>
      let (ts, c) := decomposeAnalyticalQuery query c0
      ({ originalQuery := query, queryType := qt, complexityScore := score,
         subTasks := ts, expectedResponseFormat := "analytical_report",
         estimatedExecutionTime := 5 }, c)
  | .complexMultiStep =>
      let (ts, c) := decomposeComplexQuery query c0
      ({ originalQuery := query, queryType := qt, complexityScore := score,
         subTasks := ts, expectedResponseFormat := "comprehensive_report",
         estimatedExecutionTime := 7 }, c)

/-! ### Derived notions used by the stated properties -/

/-- The ids of the plan's task executions, in order. -/
def execIds (s : LoopState) : List String :=
  s.execs.map (fun te => te.task.id)

/-- Terminal state of one task execution in the sense of the specification:
`COMPLETED`, or `FAILED` with its retries exhausted. -/
def IsTerminalExec (te : TaskExecution) : Prop :=
  te.status = .completed ∨ (te.status = .failed ∧ te.retryCount = te.maxRetries)

/-- The sub-task dependency graph contains a cycle: a nonempty id list `c`
such that each `c[i]` is the id of a plan task that depends on
`c[(i+1) % len c]`. -/
def HasDependencyCycle (tasks : List SubTask) : Prop :=
  ∃ c : List String, c ≠ [] ∧ ∀ i < c.length,
    ∃ t ∈ tasks, t.id = c.getD i "" ∧ c.getD ((i + 1) % c.length) "" ∈ t.dependencies

/-- Some plan task declares a dependency id that is not the id of any plan
task. -/
def HasDanglingDependency (tasks : List SubTask) : Prop :=
  ∃ t ∈ tasks, ∃ d ∈ t.dependencies, ∀ t' ∈ tasks, t'.id ≠ d

/-- Contribution of one task execution to the loop's termination measure:
the number of times it can still run (zero once its id is accounted for). -/
def execContribution (completed : List String) (te : TaskExecution) : Nat :=
  if completed.contains te.task.id then 0 else te.maxRetries + 1 - te.retryCount

/-- Termination measure of the execution loop: total remaining runs over all
unaccounted tasks.  It is `4 * n` on a fresh plan of `n` tasks and strictly
decreases on every iteration that processes a completion. -/
def loopMeasure (s : LoopState) : Nat :=
  (s.execs.map (execContribution s.completed)).sum

/-- Invariant of the execution loop, established by `initState` and preserved
by every micro-step.  `maxC` is the orchestrator's `max_concurrent_tasks`. -/
structure LoopInv (tasks : List SubTask) (maxC : Nat) (s : LoopState) : Prop where
  tasksEq : s.execs.map TaskExecution.task = tasks
  runningExec : ∀ id ∈ s.running, ∃ te ∈ s.execs, te.task.id = id ∧ te.status = .running
  runningNodup : s.running.Nodup
  runningFresh : ∀ id ∈ s.running, id ∉ s.completed
  completedNodup : s.completed.Nodup
  completedSub : ∀ id ∈ s.completed, id ∈ execIds s
  statusAccounted : ∀ te ∈ s.execs,
    (te.task.id ∈ s.completed ↔ (te.status = .completed ∨ te.status = .failed))
  runningStatus : ∀ te ∈ s.execs, te.status = .running →
    te.task.id ∈ s.running ∧ ∀ d ∈ te.task.dependencies, d ∈ s.completed
  retryBound : ∀ te ∈ s.execs, te.retryCount ≤ te.maxRetries
  failedExhausted : ∀ te ∈ s.execs, te.status = .failed → te.retryCount = te.maxRetries
  runningBound : s.running.length ≤ maxC

/-- Precondition satisfied by the ready list handed to the start phase:
pairwise-distinct ids, and every entry is a plan execution that is neither
accounted for nor in flight and whose dependencies are all accounted for. -/
def ReadyPre (s : LoopState) (ready : List TaskExecution) : Prop :=
  (ready.map (fun te => te.task.id)).Nodup ∧
  ∀ te ∈ ready, te ∈ s.execs ∧ te.status ≠ .completed ∧ te.status ≠ .failed ∧
    te.task.id ∉ s.running ∧ ∀ d ∈ te.task.dependencies, d ∈ s.completed

/-- One-task plan exercising the absorbed-failure path: its tool invocation
returns a dictionary with `success: false` instead of raising. -/
def failProbeTask : SubTask :=
  { id := "t1", type := .calculation, description := "d",
    toolName := "calculation", parameters := [], dependencies := [],
    priority := 1 }

/-- Scheduling environment in which every awaited task returns
`{success: false, error: "boom"}` (a tool-level failure absorbed by
`safe_execute`, not a raised exception). -/
def failProbeEnv : SchedEnv := fun _ =>
  (0, Except.ok { success := false, error := some "boom", toolName := "calculation" })

/-- Two-task chain used as a concrete acyclic plan: `b` depends on `a`. -/
def chainTaskA : SubTask :=
  { id := "a", type := .calculation, description := "d", toolName := "calculation",
    parameters := [], dependencies := [], priority := 1 }

/-- Second task of the concrete acyclic chain. -/
def chainTaskB : SubTask :=
  { id := "b", type := .calculation, description := "d", toolName := "calculation",
    parameters := [], dependencies := ["a"], priority := 2 }

/-- Two-task cycle used as a concrete cyclic plan: each task depends on the
other. -/
def cycleTaskA : SubTask :=
  { id := "a", type := .calculation, description := "d", toolName := "calculation",
    parameters := [], dependencies := ["b"], priority := 1 }

/-- Second task of the concrete cyclic plan. -/
def cycleTaskB : SubTask :=
  { id := "b", type := .calculation, description := "d", toolName := "calculation",
    parameters := [], dependencies := ["a"], priority := 1 }

/-! ### Utility lemmas -/

theorem dictGet_dictInsert_self {α : Type} (k : String) (v : α) (d : List (String × α)) :
    dictGet k (dictInsert k v d) = some v := by
  induction d with
  | nil => simp [dictInsert, dictGet]
  | cons e rest ih =>
      obtain ⟨k', v'⟩ := e
      by_cases h : k' = k
      · simp [dictInsert, dictGet, h]
      · simp [dictInsert, dictGet, h, ih]

theorem dictGet_dictInsert_ne {α : Type} {k k' : String} (v : α) (d : List (String × α))
    (h : k' ≠ k) : dictGet k' (dictInsert k v d) = dictGet k' d := by
  induction d with
  | nil => simp [dictInsert, dictGet, h, Ne.symm h]
  | cons e rest ih =>
      obtain ⟨k₀, v₀⟩ := e
      by_cases h0 : k₀ = k
      · subst h0
        simp [dictInsert, dictGet, h, Ne.symm h]
      · by_cases h1 : k₀ = k'
        · simp [dictInsert, dictGet, h, h0, h1]
        · simp [dictInsert, dictGet, h, h0, h1, ih]

theorem dictGet_dictIncr_self (k : String) (d : List (String × Nat)) :
    dictGet k (dictIncr k d) = (dictGet k d).map (· + 1) := by
  induction d with
  | nil => simp [dictIncr, dictGet]
  | cons e rest ih =>
      obtain ⟨k₀, v₀⟩ := e
      by_cases h : k₀ = k
      · simp [dictIncr, dictGet, h]
      · simp [dictIncr, dictGet, h, ih]

theorem dictKeys_dictInsert_of_mem {α : Type} {k : String} (v : α) {d : List (String × α)}
    (h : k ∈ d.map Prod.fst) : (dictInsert k v d).map Prod.fst = d.map Prod.fst := by
  induction d with
  | nil => simp at h
  | cons e rest ih =>
      obtain ⟨k₀, v₀⟩ := e
      by_cases h0 : k₀ = k
      · simp [dictInsert, h0]
      · simp only [List.map_cons, List.mem_cons] at h
        rcases h with h | h
        · exact absurd h.symm h0
        · simp [dictInsert, h0, ih h]

theorem mem_setInsert {a x : String} {s : List String} :
    a ∈ setInsert x s ↔ a = x ∨ a ∈ s := by
  by_cases h : x ∈ s
  · simp only [setInsert, if_pos h]
    constructor
    · exact Or.inr
    · rintro (rfl | ha)
      · exact h
      · exact ha
  · simp [setInsert, if_neg h, or_comm]

theorem nodup_setInsert {x : String} {s : List String} (h : s.Nodup) :
    (setInsert x s).Nodup := by
  by_cases hx : x ∈ s
  · simpa [setInsert, if_pos hx] using h
  · rw [setInsert, if_neg hx]
    exact List.Nodup.append h (List.nodup_singleton x) (by simp [List.disjoint_left, hx])

theorem length_setInsert_of_not_mem {x : String} {s : List String} (h : x ∉ s) :
    (setInsert x s).length = s.length + 1 := by
  simp [setInsert, if_neg h]

theorem insertDesc_perm (x : TaskExecution) (l : List TaskExecution) :
    List.Perm (insertDesc x l) (x :: l) := by
  induction l with
  | nil => simp [insertDesc]
  | cons y ys ih =>
      by_cases h : x.task.priority ≤ y.task.priority
      · rw [insertDesc, if_pos h]
        exact (ih.cons y).trans (List.Perm.swap x y ys)
      · rw [insertDesc, if_neg h]

theorem sortDesc_perm (l : List TaskExecution) : List.Perm (sortDesc l) l := by
  have key : ∀ (l acc : List TaskExecution),
      List.Perm (l.foldl (fun acc x => insertDesc x acc) acc) (acc ++ l) := by
    intro l
    induction l with
    | nil => intro acc; simp
    | cons x xs ih =>
        intro acc
        have h1 : (x :: xs).foldl (fun acc x => insertDesc x acc) acc
            = xs.foldl (fun acc x => insertDesc x acc) (insertDesc x acc) := rfl
        rw [h1]
        refine (ih _).trans ?_
        refine ((insertDesc_perm x acc).append_right xs).trans ?_
        exact List.perm_middle.symm
  simpa using key l []

theorem mem_sortDesc {x : TaskExecution} {l : List TaskExecution} :
    x ∈ sortDesc l ↔ x ∈ l :=
  (sortDesc_perm l).mem_iff

theorem updateFirst_eq_keyedUpdate {α : Type} (key : α → String) (k : String) (f : α → α)
    (l : List α) (hn : (l.map key).Nodup) :
    updateFirst (fun x => key x == k) f l = l.map (fun x => if key x = k then f x else x) := by
  induction l with
  | nil => rfl
  | cons x xs ih =>
      simp only [List.map_cons, List.nodup_cons] at hn
      simp only [updateFirst, List.map_cons]
      by_cases h : key x = k
      · rw [if_pos (by simp [h])]
        have hnot : ∀ y ∈ xs, ¬(key y = k) := by
          intro y hy hyk
          exact hn.1 (h ▸ hyk ▸ List.mem_map_of_mem key hy)
        have htail : xs.map (fun x => if key x = k then f x else x) = xs := by
          conv_rhs => rw [show xs = xs.map id from (List.map_id xs).symm]
          exact List.map_congr_left (fun y hy => by simp [hnot y hy])
        rw [if_pos h, htail]
      · rw [if_neg (by simp [h]), if_neg h, ih hn.2]

theorem getD_mod_mem {l : List String} (h : l ≠ []) (i : Nat) :
    l.getD (i % l.length) "" ∈ l := by
  have hlen : 0 < l.length := List.length_pos.mpr h
  have hlt : i % l.length < l.length := Nat.mod_lt _ hlen
  rw [List.getD_eq_getElem?_getD, List.getElem?_eq_getElem hlt]
  simp only [Option.getD_some]
  exact List.getElem_mem hlt

theorem find?_eq_of_nodup_keys {α : Type} (key : α → String) {l : List α}
    (hn : (l.map key).Nodup) {x : α} (hx : x ∈ l) {k : String} (hk : key x = k) :
    l.find? (fun y => key y == k) = some x := by
  induction l with
  | nil => simp at hx
  | cons y ys ih =>
      simp only [List.map_cons, List.nodup_cons] at hn
      by_cases h : key y = k
      · rw [List.find?_cons_of_pos _ (by simp [h])]
        rcases List.mem_cons.mp hx with rfl | hx'
        · rfl
        · exact absurd (by rw [h, ← hk]; exact List.mem_map_of_mem key hx') hn.1
      · rw [List.find?_cons_of_neg _ (by simp [h])]
        rcases List.mem_cons.mp hx with rfl | hx'
        · exact absurd hk h
        · exact ih hn.2 hx'

theorem exec_keys_eq {tasks : List SubTask} {maxC : Nat} {s : LoopState}
    (inv : LoopInv tasks maxC s) :
    s.execs.map (fun te => te.task.id) = tasks.map SubTask.id := by
  rw [← inv.tasksEq, List.map_map]
  rfl

theorem exec_keys_nodup {tasks : List SubTask} {maxC : Nat} {s : LoopState}
    (hnodup : (tasks.map SubTask.id).Nodup) (inv : LoopInv tasks maxC s) :
    (s.execs.map (fun te => te.task.id)).Nodup := by
  rw [exec_keys_eq inv]; exact hnodup

theorem exec_uniq {tasks : List SubTask} {maxC : Nat} {s : LoopState}
    (hnodup : (tasks.map SubTask.id).Nodup) (inv : LoopInv tasks maxC s)
    {e e' : TaskExecution} (he : e ∈ s.execs) (he' : e' ∈ s.execs)
    (hid : e.task.id = e'.task.id) : e = e' :=
  List.inj_on_of_nodup_map (exec_keys_nodup hnodup inv) he he' hid

theorem startTask_execs_eq {tasks : List SubTask} {maxC : Nat} {s : LoopState}
    (hnodup : (tasks.map SubTask.id).Nodup) (inv : LoopInv tasks maxC s)
    (te : TaskExecution) :
    (startTask te s).execs = s.execs.map
      (fun e => if e.task.id = te.task.id then { e with status := .running } else e) := by
  simp only [startTask]
  exact updateFirst_eq_keyedUpdate (fun e => e.task.id) te.task.id _ s.execs
    (exec_keys_nodup hnodup inv)

theorem startTask_running_eq {s : LoopState} {te : TaskExecution}
    (hrun : te.task.id ∉ s.running) :
    (startTask te s).running = s.running ++ [te.task.id] := by
  simp only [startTask]
  rw [if_neg (by simpa using hrun)]

theorem startTask_inv {tasks : List SubTask} {maxC : Nat} {s : LoopState}
    {te : TaskExecution}
    (hnodup : (tasks.map SubTask.id).Nodup)
    (inv : LoopInv tasks maxC s)
    (hte : te ∈ s.execs) (hst1 : te.status ≠ .completed) (hst2 : te.status ≠ .failed)
    (hrun : te.task.id ∉ s.running)
    (hdeps : ∀ d ∈ te.task.dependencies, d ∈ s.completed)
    (hcap : s.running.length < maxC) :
    LoopInv tasks maxC (startTask te s) := by
  have hexecs := startTask_execs_eq hnodup inv te
  have hrunning := startTask_running_eq hrun
  have hcompleted : (startTask te s).completed = s.completed := rfl
  have hteNotCompleted : te.task.id ∉ s.completed := by
    intro hmem
    rcases (inv.statusAccounted te hte).mp hmem with h | h
    · exact hst1 h
    · exact hst2 h
  have hids : execIds (startTask te s) = execIds s := by
    rw [execIds, hexecs, List.map_map]
    apply List.map_congr_left
    intro e _
    by_cases h : e.task.id = te.task.id <;> simp [h]
  refine ⟨?_, ?_, ?_, ?_, ?_, ?_, ?_, ?_, ?_, ?_, ?_⟩
  · -- tasksEq
    rw [hexecs, List.map_map, ← inv.tasksEq]
    apply List.map_congr_left
    intro e _
    by_cases h : e.task.id = te.task.id <;> simp [h]
  · -- runningExec
    intro id hid
    rw [hrunning] at hid
    rcases List.mem_append.mp hid with hid | hid
    · obtain ⟨te₀, hte₀, hid₀, hst₀⟩ := inv.runningExec id hid
      refine ⟨te₀, ?_, hid₀, hst₀⟩
      rw [hexecs]
      have hne : te₀.task.id ≠ te.task.id := fun h => hrun (h ▸ hid₀ ▸ hid)
      have := List.mem_map_of_mem
        (fun e => if e.task.id = te.task.id then { e with status := .running } else e) hte₀
      simpa [if_neg hne] using this
    · have hid' : id = te.task.id := by simpa using hid
      refine ⟨{ te with status := .running }, ?_, by simp [hid'], rfl⟩
      rw [hexecs]
      have := List.mem_map_of_mem
        (fun e => if e.task.id = te.task.id then { e with status := .running } else e) hte
      simpa using this
  · -- runningNodup
    rw [hrunning]
    refine List.Nodup.append inv.runningNodup (List.nodup_singleton _) ?_
    intro a ha hb
    simp only [List.mem_singleton] at hb
    exact hrun (hb ▸ ha)
  · -- runningFresh
    intro id hid
    rw [hrunning] at hid
    rw [hcompleted]
    rcases List.mem_append.mp hid with hid | hid
    · exact inv.runningFresh id hid
    · have hid' : id = te.task.id := by simpa using hid
      exact hid' ▸ hteNotCompleted
  · -- completedNodup
    rw [hcompleted]; exact inv.completedNodup
  · -- completedSub
    intro id hid
    rw [hcompleted] at hid
    rw [hids]
    exact inv.completedSub id hid
  · -- statusAccounted
    intro e' he'
    rw [hexecs] at he'
    obtain ⟨e, he, rfl⟩ := List.mem_map.mp he'
    rw [hcompleted]
    by_cases h : e.task.id = te.task.id
    · have : e = te := exec_uniq hnodup inv he hte h
      subst this
      simp only [if_pos rfl]
      constructor
      · intro hmem; exact absurd hmem hteNotCompleted
      · rintro (h' | h') <;> simp at h'
    · simp only [if_neg h]
      exact inv.statusAccounted e he
  · -- runningStatus
    intro e' he' hst
    rw [hexecs] at he'
    obtain ⟨e, he, rfl⟩ := List.mem_map.mp he'
    rw [hrunning, hcompleted]
    by_cases h : e.task.id = te.task.id
    · have : e = te := exec_uniq hnodup inv he hte h
      subst this
      simp only [if_pos rfl]
      exact ⟨by simp, fun d hd => hdeps d hd⟩
    · rw [if_neg h] at hst ⊢
      obtain ⟨h1, h2⟩ := inv.runningStatus e he hst
      exact ⟨List.mem_append.mpr (Or.inl h1), h2⟩
  · -- retryBound
    intro e' he'
    rw [hexecs] at he'
    obtain ⟨e, he, rfl⟩ := List.mem_map.mp he'
    by_cases h : e.task.id = te.task.id <;> simp [h, inv.retryBound e he]
  · -- failedExhausted
    intro e' he' hst
    rw [hexecs] at he'
    obtain ⟨e, he, rfl⟩ := List.mem_map.mp he'
    by_cases h : e.task.id = te.task.id
    · rw [if_pos h] at hst
      simp at hst
    · rw [if_neg h] at hst ⊢
      exact inv.failedExhausted e he hst
  · -- runningBound
    rw [hrunning]
    simpa using hcap

theorem startTask_measure {tasks : List SubTask} {maxC : Nat} {s : LoopState}
    (hnodup : (tasks.map SubTask.id).Nodup) (inv : LoopInv tasks maxC s)
    (te : TaskExecution) :
    loopMeasure (startTask te s) = loopMeasure s := by
  have hexecs := startTask_execs_eq hnodup inv te
  have hcompleted : (startTask te s).completed = s.completed := rfl
  rw [loopMeasure, hexecs, hcompleted, List.map_map, loopMeasure]
  apply congrArg
  apply List.map_congr_left
  intro e _
  by_cases h : e.task.id = te.task.id <;> simp [execContribution, h]

theorem startTask_running_ne_nil {s : LoopState} {te : TaskExecution}
    (h : s.running ≠ []) : (startTask te s).running ≠ [] := by
  simp only [startTask]
  by_cases hc : te.task.id ∈ s.running
  · simpa [hc] using h
  · simp [hc]

theorem getReadyTasks_pre {tasks : List SubTask} {maxC : Nat} {s : LoopState}
    (hnodup : (tasks.map SubTask.id).Nodup) (inv : LoopInv tasks maxC s) :
    ReadyPre s (getReadyTasks s) := by
  have hperm : List.Perm (getReadyTasks s)
      (s.execs.filter (fun te =>
        !(te.status == .completed || te.status == .failed
            || s.running.contains te.task.id)
        && te.task.dependencies.all (fun d => s.completed.contains d))) :=
    sortDesc_perm _
  constructor
  · have hsub : (s.execs.filter (fun te =>
        !(te.status == .completed || te.status == .failed
            || s.running.contains te.task.id)
        && te.task.dependencies.all (fun d => s.completed.contains d))).Sublist s.execs :=
      List.filter_sublist _
    have : ((s.execs.filter _).map (fun te => te.task.id)).Nodup :=
      List.Nodup.sublist (hsub.map _) (exec_keys_nodup hnodup inv)
    exact ((hperm.map _).nodup_iff).mpr this
  · intro te hte
    have hte' := hperm.mem_iff.mp hte
    rw [List.mem_filter] at hte'
    obtain ⟨hmem, hcond⟩ := hte'
    simp only [Bool.and_eq_true, Bool.not_eq_true', Bool.or_eq_false_iff, beq_eq_false_iff_ne,
      List.all_eq_true, List.elem_eq_mem, decide_eq_true_eq, ne_eq,
      decide_eq_false_iff_not] at hcond
    exact ⟨hmem, hcond.1.1.1, hcond.1.1.2, hcond.1.2, hcond.2⟩

theorem startPhase_spec {tasks : List SubTask} {maxC : Nat}
    (hnodup : (tasks.map SubTask.id).Nodup) :
    ∀ (ready : List TaskExecution) (s : LoopState),
    LoopInv tasks maxC s → ReadyPre s ready →
    ∀ tr rem sf, startPhase maxC ready s = (tr, rem, sf) →
    LoopInv tasks maxC sf ∧ (∀ σ ∈ tr, LoopInv tasks maxC σ) ∧
    sf.completed = s.completed ∧
    loopMeasure sf = loopMeasure s ∧
    (sf.running = [] → sf = s ∧ rem = ready ∧ s.running = [] ∧ (maxC = 0 ∨ ready = [])) := by
  intro ready
  induction ready with
  | nil =>
      intro s inv _ tr rem sf heq
      simp only [startPhase, Prod.mk.injEq] at heq
      obtain ⟨h1, h2, h3⟩ := heq
      subst h1; subst h2; subst h3
      exact ⟨inv, by simp, rfl, rfl, fun _ => ⟨rfl, rfl, by assumption, Or.inr rfl⟩⟩
  | cons te rest ih =>
      intro s inv hpre tr rem sf heq
      obtain ⟨hkeys, hcond⟩ := hpre
      obtain ⟨hte, hst1, hst2, hrun, hdeps⟩ := hcond te (List.mem_cons_self te rest)
      by_cases hcap : s.running.length < maxC
      · rcases hrec : startPhase maxC rest (startTask te s) with ⟨tr', rem', sf'⟩
        have heq' : (tr, rem, sf) = ((startTask te s) :: tr', rem', sf') := by
          rw [← heq]
          simp only [startPhase, if_pos hcap, hrec]
        simp only [Prod.mk.injEq] at heq'
        obtain ⟨rfl, rfl, rfl⟩ := heq'
        have inv' : LoopInv tasks maxC (startTask te s) :=
          startTask_inv hnodup inv hte hst1 hst2 hrun hdeps hcap
        have hexecs := startTask_execs_eq hnodup inv te
        have hrunning := startTask_running_eq hrun
        simp only [List.map_cons, List.nodup_cons] at hkeys
        have hpre' : ReadyPre (startTask te s) rest := by
          refine ⟨hkeys.2, ?_⟩
          intro te' hte'
          obtain ⟨hmem', hst1', hst2', hrun', hdeps'⟩ :=
            hcond te' (List.mem_cons_of_mem te hte')
          have hne : te'.task.id ≠ te.task.id := by
            intro h
            exact hkeys.1 (h ▸ List.mem_map_of_mem (fun x => x.task.id) hte')
          refine ⟨?_, hst1', hst2', ?_, hdeps'⟩
          · rw [hexecs]
            have := List.mem_map_of_mem
              (fun e => if e.task.id = te.task.id then { e with status := .running } else e)
              hmem'
            simpa [if_neg hne] using this
          · rw [hrunning]
            intro hmem
            rcases List.mem_append.mp hmem with h | h
            · exact hrun' h
            · exact hne (by simpa using h)
        obtain ⟨invf, trInv, hcomp, hmeas, hnil⟩ :=
          ih (startTask te s) inv' hpre' _ _ _ hrec
        refine ⟨invf, ?_, hcomp, by rw [hmeas, startTask_measure hnodup inv te], ?_⟩
        · intro σ hσ
          rcases List.mem_cons.mp hσ with rfl | hσ'
          · exact inv'
          · exact trInv σ hσ'
        · intro hsf
          have hne : (startTask te s).running ≠ [] := by
            rw [hrunning]; simp
          exact absurd (by rw [← (hnil hsf).1]; exact hsf) hne
      · have heq' : (tr, rem, sf) = ([], te :: rest, s) := by
          rw [← heq]
          simp only [startPhase, if_neg hcap]
        simp only [Prod.mk.injEq] at heq'
        obtain ⟨rfl, rfl, rfl⟩ := heq'
        refine ⟨inv, by simp, rfl, rfl, ?_⟩
        intro hnil
        refine ⟨rfl, rfl, hnil, Or.inl ?_⟩
        rw [hnil] at hcap
        simp only [List.length_nil] at hcap
        omega

theorem finish_update_inv {tasks : List SubTask} {maxC : Nat} {s : LoopState}
    (hnodup : (tasks.map SubTask.id).Nodup) (inv : LoopInv tasks maxC s)
    {k : String} {te₀ : TaskExecution}
    (hte₀ : te₀ ∈ s.execs) (hid₀ : te₀.task.id = k) (hst₀ : te₀.status = .running)
    (upd : TaskExecution → TaskExecution)
    (htask : (upd te₀).task = te₀.task)
    (hmaxR : (upd te₀).maxRetries = te₀.maxRetries)
    (hretry : (upd te₀).retryCount ≤ te₀.maxRetries)
    (hnotrun : (upd te₀).status ≠ .running)
    (hfail : (upd te₀).status = .failed → (upd te₀).retryCount = te₀.maxRetries)
    (addC : Bool)
    (haddC : ((upd te₀).status = .completed ∨ (upd te₀).status = .failed) ↔ addC = true)
    (res : List (String × ToolResult)) (tk : Nat) :
    LoopInv tasks maxC
      { execs := s.execs.map (fun e => if e.task.id = k then upd e else e),
        completed := if addC then setInsert k s.completed else s.completed,
        running := s.running.erase k,
        results := res, tick := tk } := by
  have hkrun : k ∈ s.running := hid₀ ▸ (inv.runningStatus te₀ hte₀ hst₀).1
  have hkNotC : k ∉ s.completed := inv.runningFresh k hkrun
  have huniq : ∀ e ∈ s.execs, e.task.id = k → e = te₀ := fun e he hek =>
    exec_uniq hnodup inv he hte₀ (hek.trans hid₀.symm)
  have hmemC' : ∀ id, (id ∈ (if addC then setInsert k s.completed else s.completed)) ↔
      ((addC = true ∧ id = k) ∨ id ∈ s.completed) := by
    intro id
    cases addC with
    | false => simp
    | true => simp [mem_setInsert]
  have hmemE : ∀ id, id ∈ s.running.erase k ↔ id ≠ k ∧ id ∈ s.running := by
    intro id
    exact inv.runningNodup.mem_erase_iff
  have hids : execIds
      { execs := s.execs.map (fun e => if e.task.id = k then upd e else e),
        completed := if addC then setInsert k s.completed else s.completed,
        running := s.running.erase k, results := res, tick := tk } = execIds s := by
    show (s.execs.map _).map _ = _
    rw [List.map_map]
    apply List.map_congr_left
    intro e he
    by_cases h : e.task.id = k
    · have he0 : e = te₀ := huniq e he h
      subst he0
      simp [h, htask]
    · simp [h]
  refine ⟨?_, ?_, ?_, ?_, ?_, ?_, ?_, ?_, ?_, ?_, ?_⟩
  · -- tasksEq
    show (s.execs.map _).map _ = _
    rw [List.map_map, ← inv.tasksEq]
    apply List.map_congr_left
    intro e he
    by_cases h : e.task.id = k
    · have he0 : e = te₀ := huniq e he h
      subst he0
      simp [h, htask]
    · simp [h]
  · -- runningExec
    intro id hidr
    obtain ⟨hidk, hidrun⟩ := (hmemE id).mp hidr
    obtain ⟨te, hte, hteid, htest⟩ := inv.runningExec id hidrun
    refine ⟨te, ?_, hteid, htest⟩
    have hne : te.task.id ≠ k := hteid ▸ hidk
    have := List.mem_map_of_mem (fun e => if e.task.id = k then upd e else e) hte
    simpa [if_neg hne] using this
  · -- runningNodup
    exact inv.runningNodup.erase k
  · -- runningFresh
    intro id hidr
    obtain ⟨hidk, hidrun⟩ := (hmemE id).mp hidr
    rw [hmemC']
    rintro (⟨_, rfl⟩ | hold)
    · exact hidk rfl
    · exact inv.runningFresh id hidrun hold
  · -- completedNodup
    cases addC with
    | false => exact inv.completedNodup
    | true => exact nodup_setInsert inv.completedNodup
  · -- completedSub
    intro id hid
    rw [hmemC'] at hid
    rw [hids]
    rcases hid with ⟨_, rfl⟩ | hold
    · exact hid₀ ▸ List.mem_map_of_mem (fun te => te.task.id) hte₀
    · exact inv.completedSub id hold
  · -- statusAccounted
    intro e' he'
    obtain ⟨e, he, rfl⟩ := List.mem_map.mp he'
    by_cases h : e.task.id = k
    · have he0 : e = te₀ := huniq e he h
      subst he0
      rw [if_pos h]
      constructor
      · intro hmem
        rcases (hmemC' _).mp ((by rwa [htask, hid₀] at hmem : k ∈ _)) with ⟨ha, _⟩ | hold
        · exact haddC.mpr ha
        · exact absurd hold hkNotC
      · intro hst
        rw [hmemC', htask, hid₀]
        exact Or.inl ⟨haddC.mp hst, rfl⟩
    · rw [if_neg h]
      rw [hmemC']
      constructor
      · rintro (⟨_, rfl⟩ | hold)
        · exact absurd rfl h
        · exact (inv.statusAccounted e he).mp hold
      · intro hst
        exact Or.inr ((inv.statusAccounted e he).mpr hst)
  · -- runningStatus
    intro e' he' hst
    obtain ⟨e, he, rfl⟩ := List.mem_map.mp he'
    by_cases h : e.task.id = k
    · have he0 : e = te₀ := huniq e he h
      subst he0
      rw [if_pos h] at hst
      exact absurd hst hnotrun
    · rw [if_neg h] at hst ⊢
      obtain ⟨h1, h2⟩ := inv.runningStatus e he hst
      refine ⟨(hmemE _).mpr ⟨h, h1⟩, ?_⟩
      intro d hd
      rw [hmemC']
      exact Or.inr (h2 d hd)
  · -- retryBound
    intro e' he'
    obtain ⟨e, he, rfl⟩ := List.mem_map.mp he'
    by_cases h : e.task.id = k
    · have he0 : e = te₀ := huniq e he h
      subst he0
      rw [if_pos h]
      rw [hmaxR]
      exact hretry
    · rw [if_neg h]
      exact inv.retryBound e he
  · -- failedExhausted
    intro e' he' hst
    obtain ⟨e, he, rfl⟩ := List.mem_map.mp he'
    by_cases h : e.task.id = k
    · have he0 : e = te₀ := huniq e he h
      subst he0
      rw [if_pos h] at hst ⊢
      rw [hmaxR]
      exact hfail hst
    · rw [if_neg h] at hst ⊢
      exact inv.failedExhausted e he hst
  · -- runningBound
    exact le_trans (List.erase_sublist k s.running).length_le inv.runningBound

theorem finish_update_measure {tasks : List SubTask} {maxC : Nat} {s : LoopState}
    (hnodup : (tasks.map SubTask.id).Nodup) (inv : LoopInv tasks maxC s)
    {k : String} {te₀ : TaskExecution}
    (hte₀ : te₀ ∈ s.execs) (hid₀ : te₀.task.id = k) (hst₀ : te₀.status = .running)
    (upd : TaskExecution → TaskExecution)
    (htask : (upd te₀).task = te₀.task)
    (addC : Bool)
    (hdec : execContribution (if addC then setInsert k s.completed else s.completed) (upd te₀)
            < execContribution s.completed te₀)
    (res : List (String × ToolResult)) (tk : Nat) :
    loopMeasure
      { execs := s.execs.map (fun e => if e.task.id = k then upd e else e),
        completed := if addC then setInsert k s.completed else s.completed,
        running := s.running.erase k,
        results := res, tick := tk } < loopMeasure s := by
  have huniq : ∀ e ∈ s.execs, e.task.id = k → e = te₀ := fun e he hek =>
    exec_uniq hnodup inv he hte₀ (hek.trans hid₀.symm)
  show ((s.execs.map _).map _).sum < (s.execs.map _).sum
  rw [List.map_map]
  apply List.sum_lt_sum
  · intro e he
    by_cases h : e.task.id = k
    · have he0 : e = te₀ := huniq e he h
      subst he0
      simp only [Function.comp_apply, if_pos h]
      exact le_of_lt hdec
    · simp only [Function.comp_apply, if_neg h]
      have : e.task.id ∈ (if addC then setInsert k s.completed else s.completed) ↔
          e.task.id ∈ s.completed := by
        cases addC with
        | false => simp
        | true => simp [mem_setInsert, h]
      simp only [execContribution]
      by_cases hc : e.task.id ∈ s.completed
      · rw [if_pos (by simpa [List.elem_eq_mem, hc] using (this.mpr hc) : _),
            if_pos (by simpa [List.elem_eq_mem] using hc)]
      · rw [if_neg (by simp [List.elem_eq_mem]; exact fun hh => hc (this.mp hh)),
            if_neg (by simpa [List.elem_eq_mem] using hc)]
  · exact ⟨te₀, hte₀, by simp only [Function.comp_apply, if_pos hid₀]; exact hdec⟩

theorem updateFirst_exec_eq (k : String) (f : TaskExecution → TaskExecution)
    (l : List TaskExecution) (hn : (l.map (fun te => te.task.id)).Nodup) :
    updateFirst (fun te => te.task.id == k) f l
      = l.map (fun e => if e.task.id = k then f e else e) :=
  updateFirst_eq_keyedUpdate (fun te => te.task.id) k f l hn

theorem finishTask_spec {tasks : List SubTask} {maxC : Nat} {s : LoopState}
    (hnodup : (tasks.map SubTask.id).Nodup) (inv : LoopInv tasks maxC s)
    (env : SchedEnv) (hne : ¬ s.running.isEmpty = true) :
    LoopInv tasks maxC (finishTask env s) ∧
    loopMeasure (finishTask env s) < loopMeasure s := by
  have hne' : s.running ≠ [] := by
    intro h; rw [h] at hne; simp at hne
  set k := s.running.getD ((env s.tick).1 % s.running.length) "" with hk
  have hkmem : k ∈ s.running := getD_mod_mem hne' _
  obtain ⟨te₀, hte₀, hid₀, hst₀⟩ := inv.runningExec k hkmem
  have hkeys := exec_keys_nodup hnodup inv
  have hfind : s.execs.find? (fun te => te.task.id == k) = some te₀ :=
    find?_eq_of_nodup_keys _ hkeys hte₀ hid₀
  have hkNotC : k ∉ s.completed := inv.runningFresh k hkmem
  have hrB := inv.retryBound te₀ hte₀
  have hcontain : ¬ (s.completed.contains te₀.task.id = true) := by
    rw [hid₀]
    simpa [List.elem_eq_mem] using hkNotC
  rcases hE : (env s.tick).2 with errMsg | res
  · -- raised exception: retry or terminal failure
    by_cases hR : te₀.retryCount < te₀.maxRetries
    · have hform : finishTask env s =
          { execs := s.execs.map (fun e => if e.task.id = k then
              { e with status := .pending, error := some errMsg,
                       retryCount := e.retryCount + 1 } else e),
            completed := s.completed,
            running := s.running.erase k,
            results := s.results, tick := s.tick + 1 } := by
        rw [finishTask, if_neg hne]
        simp only [← hk, hE, hfind]
        rw [if_pos hR, updateFirst_exec_eq k _ _ hkeys]
      rw [hform]
      constructor
      · exact finish_update_inv hnodup inv hte₀ hid₀ hst₀
          (fun e => { e with status := .pending, error := some errMsg,
                             retryCount := e.retryCount + 1 })
          rfl rfl (by simpa using hR) (by simp) (by simp) false (by simp) _ _
      · refine finish_update_measure hnodup inv hte₀ hid₀ hst₀
          (fun e => { e with status := .pending, error := some errMsg,
                             retryCount := e.retryCount + 1 })
          rfl false ?_ _ _
        show execContribution s.completed _ < execContribution s.completed te₀
        have h1 : execContribution s.completed
            { te₀ with status := .pending, error := some errMsg,
                       retryCount := te₀.retryCount + 1 }
            = te₀.maxRetries + 1 - (te₀.retryCount + 1) := by
          rw [execContribution, if_neg hcontain]
        have h2 : execContribution s.completed te₀
            = te₀.maxRetries + 1 - te₀.retryCount := by
          rw [execContribution, if_neg hcontain]
        rw [h1, h2]
        omega
    · have hform : finishTask env s =
          { execs := s.execs.map (fun e => if e.task.id = k then
              { e with status := .failed, error := some errMsg } else e),
            completed := setInsert k s.completed,
            running := s.running.erase k,
            results := s.results, tick := s.tick + 1 } := by
        rw [finishTask, if_neg hne]
        simp only [← hk, hE, hfind]
        rw [if_neg hR, updateFirst_exec_eq k _ _ hkeys]
      rw [hform]
      constructor
      · exact finish_update_inv hnodup inv hte₀ hid₀ hst₀
          (fun e => { e with status := .failed, error := some errMsg })
          rfl rfl hrB (by simp)
          (by intro _; show te₀.retryCount = te₀.maxRetries; omega) true (by simp) _ _
      · refine finish_update_measure hnodup inv hte₀ hid₀ hst₀
          (fun e => { e with status := .failed, error := some errMsg })
          rfl true ?_ _ _
        show execContribution (setInsert k s.completed) _ < execContribution s.completed te₀
        have h1 : execContribution (setInsert k s.completed)
            { te₀ with status := .failed, error := some errMsg } = 0 := by
          rw [execContribution,
            if_pos (by simp [List.elem_eq_mem, mem_setInsert, hid₀])]
        have h2 : execContribution s.completed te₀
            = te₀.maxRetries + 1 - te₀.retryCount := by
          rw [execContribution, if_neg hcontain]
        rw [h1, h2]
        omega
  · -- returned result: COMPLETED, joins the completed set
    have hform : finishTask env s =
        { execs := s.execs.map (fun e => if e.task.id = k then
            { e with status := .completed, result := some res } else e),
          completed := setInsert k s.completed,
          running := s.running.erase k,
          results := dictInsert k res s.results, tick := s.tick + 1 } := by
      rw [finishTask, if_neg hne]
      simp only [← hk, hE]
      rw [updateFirst_exec_eq k _ _ hkeys]
    rw [hform]
    constructor
    · exact finish_update_inv hnodup inv hte₀ hid₀ hst₀
        (fun e => { e with status := .completed, result := some res })
        rfl rfl hrB (by simp) (by simp) true (by simp) _ _
    · refine finish_update_measure hnodup inv hte₀ hid₀ hst₀
        (fun e => { e with status := .completed, result := some res })
        rfl true ?_ _ _
      show execContribution (setInsert k s.completed) _ < execContribution s.completed te₀
      have h1 : execContribution (setInsert k s.completed)
          { te₀ with status := .completed, result := some res } = 0 := by
        rw [execContribution,
          if_pos (by simp [List.elem_eq_mem, mem_setInsert, hid₀])]
      have h2 : execContribution s.completed te₀
          = te₀.maxRetries + 1 - te₀.retryCount := by
        rw [execContribution, if_neg hcontain]
      rw [h1, h2]
      omega

theorem loopBody_spec {tasks : List SubTask} {maxC : Nat} {s : LoopState}
    (hnodup : (tasks.map SubTask.id).Nodup) (inv : LoopInv tasks maxC s)
    (env : SchedEnv) :
    ∀ tr s' cont, loopBody maxC env s = (tr, s', cont) →
    LoopInv tasks maxC s' ∧ (∀ σ ∈ tr, LoopInv tasks maxC σ) ∧
    (cont = true → 1 ≤ maxC → loopMeasure s' < loopMeasure s) ∧
    (cont = false → s' = s ∧ s.running = [] ∧ getReadyTasks s = []) := by
  intro tr s' cont heq
  rcases hsp : startPhase maxC (getReadyTasks s) s with ⟨tr1, rem, s1⟩
  obtain ⟨inv1, trInv1, hcomp1, hmeas1, hchar⟩ :=
    startPhase_spec hnodup (getReadyTasks s) s inv (getReadyTasks_pre hnodup inv) _ _ _ hsp
  by_cases hrun : s1.running.isEmpty
  · obtain ⟨hs1, hrem_eq, hsrun, hmc⟩ := hchar (by simpa [List.isEmpty_iff] using hrun)
    by_cases hrem : rem.isEmpty
    · have heq' : (tr, s', cont) = (tr1, s1, false) := by
        rw [← heq]
        simp only [loopBody, hsp, if_pos hrun, if_pos hrem]
      simp only [Prod.mk.injEq] at heq'
      obtain ⟨rfl, rfl, rfl⟩ := heq'
      refine ⟨inv1, trInv1, by simp, ?_⟩
      intro _
      refine ⟨hs1, hsrun, ?_⟩
      rw [← hrem_eq]
      simpa [List.isEmpty_iff] using hrem
    · have heq' : (tr, s', cont) = (tr1, s1, true) := by
        rw [← heq]
        simp only [loopBody, hsp, if_pos hrun, if_neg hrem]
      simp only [Prod.mk.injEq] at heq'
      obtain ⟨rfl, rfl, rfl⟩ := heq'
      refine ⟨inv1, trInv1, ?_, by simp⟩
      intro _ hmax
      rcases hmc with h0 | hready
      · omega
      · rw [hready] at hrem_eq
        rw [hrem_eq] at hrem
        simp at hrem
  · have heq' : (tr, s', cont) = (tr1 ++ [finishTask env s1], finishTask env s1, true) := by
      rw [← heq]
      simp only [loopBody, hsp, if_neg hrun]
    simp only [Prod.mk.injEq] at heq'
    obtain ⟨rfl, rfl, rfl⟩ := heq'
    obtain ⟨inv2, hmeas2⟩ := finishTask_spec hnodup inv1 env (by simpa using hrun)
    refine ⟨inv2, ?_, ?_, by simp⟩
    · intro σ hσ
      rcases List.mem_append.mp hσ with h | h
      · exact trInv1 σ h
      · rw [List.mem_singleton.mp h]
        exact inv2
    · intro _ _
      rw [hmeas1] at hmeas2
      exact hmeas2

theorem runLoop_spec {tasks : List SubTask} {maxC : Nat} (env : SchedEnv)
    (hnodup : (tasks.map SubTask.id).Nodup) :
    ∀ (fuel : Nat) (s : LoopState), LoopInv tasks maxC s →
    ∀ tr sf fin, runLoop maxC env fuel s = (tr, sf, fin) →
    LoopInv tasks maxC sf ∧ (∀ σ ∈ tr, LoopInv tasks maxC σ) ∧
    (1 ≤ maxC → loopMeasure s < fuel → fin = true) ∧
    (fin = true → (sf.execs.length ≤ sf.completed.length ∨
                   (sf.running = [] ∧ getReadyTasks sf = []))) := by
  intro fuel
  induction fuel with
  | zero =>
      intro s inv tr sf fin heq
      simp only [runLoop, Prod.mk.injEq] at heq
      obtain ⟨rfl, rfl, rfl⟩ := heq
      exact ⟨inv, by simp, fun _ h => absurd h (Nat.not_lt_zero _), by simp⟩
  | succ n ih =>
      intro s inv tr sf fin heq
      by_cases hdone : s.execs.length ≤ s.completed.length
      · have heq' : (tr, sf, fin) = ([], s, true) := by
          rw [← heq]
          simp only [runLoop, if_pos hdone]
        simp only [Prod.mk.injEq] at heq'
        obtain ⟨rfl, rfl, rfl⟩ := heq'
        exact ⟨inv, by simp, fun _ _ => rfl, fun _ => Or.inl hdone⟩
      · rcases hb : loopBody maxC env s with ⟨tr1, s1, cont⟩
        obtain ⟨inv1, trInv1, hdec, hbreak⟩ := loopBody_spec hnodup inv env _ _ _ hb
        cases cont with
        | true =>
            rcases hr : runLoop maxC env n s1 with ⟨tr2, s2, fin2⟩
            have heq' : (tr, sf, fin) = (tr1 ++ tr2, s2, fin2) := by
              rw [← heq]
              simp [runLoop, if_neg hdone, hb, hr]
            simp only [Prod.mk.injEq] at heq'
            obtain ⟨rfl, rfl, rfl⟩ := heq'
            obtain ⟨invf, trInv2, hfin2, hexit⟩ := ih s1 inv1 _ _ _ hr
            refine ⟨invf, ?_, ?_, hexit⟩
            · intro σ hσ
              rcases List.mem_append.mp hσ with h | h
              · exact trInv1 σ h
              · exact trInv2 σ h
            · intro hmax hfuel
              exact hfin2 hmax (lt_of_lt_of_le (hdec rfl hmax) (by omega))
        | false =>
            have heq' : (tr, sf, fin) = (tr1, s1, true) := by
              rw [← heq]
              simp [runLoop, if_neg hdone, hb]
            simp only [Prod.mk.injEq] at heq'
            obtain ⟨rfl, rfl, rfl⟩ := heq'
            obtain ⟨hs1, hsrun, hready⟩ := hbreak rfl
            refine ⟨inv1, trInv1, fun _ _ => rfl, fun _ => Or.inr ?_⟩
            rw [hs1]
            exact ⟨hsrun, hready⟩

/-! ### Claim C1 — decomposer dependency-id invariant -/

/-- C1: the claim states that every `dependencies` entry of every sub-task of
every decomposition references an id of the same decomposition, for any prior
state of the decomposer instance.  On a fresh instance this holds for
`"hello"` (first conjunct), but the `task_id_counter` persists across
`decompose_query` calls while the dependency lists are hard-coded to
`"task_001"`/…, so the second decomposition produced by the same instance
(ids `task_003`, `task_004`) declares a dependency on `task_001`, which
names no sub-task of that decomposition (second conjunct): the code
violates the documented invariant. -/
theorem c1_task_id_counter_breaks_dependency_invariant :
    (∀ te ∈ (decomposeQuery "hello" 0).1.subTasks, ∀ dep ∈ te.dependencies,
        ∃ t' ∈ (decomposeQuery "hello" 0).1.subTasks, t'.id = dep) ∧
    (∃ te ∈ (decomposeQuery "hello" (decomposeQuery "hello" 0).2).1.subTasks,
        ∃ dep ∈ te.dependencies,
        ∀ t' ∈ (decomposeQuery "hello" (decomposeQuery "hello" 0).2).1.subTasks,
          t'.id ≠ dep) := by
  decide

/-! ### Claim C7 — CalculationTool statistics -/

/-- C7 counterexample: the claim says the statistics operation applied to the
empty list returns `{}`; but `CalculationTool.execute` guards with
`if not data or not isinstance(data, list)`, and an empty list is falsy, so
the operation raises `ToolExecutionError` instead. -/
theorem c7_statistics_empty_list_raises :
    calcStatisticsOp (some (PyVal.pylist [])) ≠ Except.ok StatsResult.empty ∧
    calcStatisticsOp (some (PyVal.pylist []))
      = Except.error "data list is required for statistics" := by
  constructor
  · intro h
    simp [calcStatisticsOp, PyVal.truthy] at h
  · rfl

/-- C7 (amended): the helper `_calculate_statistics` maps `[]` to `{}` and
`[1,2,3,"x"]` to `{count:3, sum:6, mean:2.0, min:1, max:3, range:2}`
(count/sum/mean/min/max/range over the numeric subset), and the
execute-level statistics operation returns exactly the helper's result for
every non-empty data list — but rejects the empty list with
`ToolExecutionError` rather than returning `{}`. -/
theorem c7_statistics_behaviour :
    calculateStatistics [] = StatsResult.empty ∧
    calculateStatistics [PyVal.int 1, PyVal.int 2, PyVal.int 3, PyVal.str "x"]
      = StatsResult.full 3 6 2 1 3 2 ∧
    calcStatisticsOp (some (PyVal.pylist [PyVal.int 1, PyVal.int 2, PyVal.int 3,
        PyVal.str "x"]))
      = Except.ok (StatsResult.full 3 6 2 1 3 2) ∧
    (∀ data : List PyVal, data ≠ [] →
        calcStatisticsOp (some (PyVal.pylist data)) = Except.ok (calculateStatistics data)) ∧
    calcStatisticsOp (some (PyVal.pylist []))
      = Except.error "data list is required for statistics" := by
  have hconcrete : calculateStatistics [PyVal.int 1, PyVal.int 2, PyVal.int 3, PyVal.str "x"]
      = StatsResult.full 3 6 2 1 3 2 := by
    simp [calculateStatistics, listMinQ, listMaxQ, PyVal.isNumeric, PyVal.toRat]
    norm_num
  refine ⟨rfl, hconcrete, ?_, ?_, rfl⟩
  · show calcStatisticsOp _ = _
    rw [show calcStatisticsOp (some (PyVal.pylist [PyVal.int 1, PyVal.int 2, PyVal.int 3,
        PyVal.str "x"])) = Except.ok (calculateStatistics [PyVal.int 1, PyVal.int 2,
        PyVal.int 3, PyVal.str "x"]) from rfl, hconcrete]
  · intro data h
    simp [calcStatisticsOp, PyVal.truthy, h]

/-- C7 witness: the amended non-empty clause applied at `[1]`. -/
theorem c7_statistics_behaviour_witness :
    calcStatisticsOp (some (PyVal.pylist [PyVal.int 1]))
      = Except.ok (calculateStatistics [PyVal.int 1]) :=
  c7_statistics_behaviour.2.2.2.1 [PyVal.int 1] (List.cons_ne_nil _ _)

/-! ### Claim C8 — CalculationTool count -/

/-- C8 counterexample: the claim says `count` returns the length of every
list input, hence `0` on `[]`; but the `if not data` guard makes the empty
list raise `ToolExecutionError` instead. -/
theorem c8_count_empty_list_raises :
    calcCountOp (some (PyVal.pylist [])) ≠ Except.ok 0 ∧
    calcCountOp (some (PyVal.pylist []))
      = Except.error "data is required for count operation" := by
  constructor
  · intro h
    simp [calcCountOp, PyVal.truthy] at h
  · rfl

/-- C8 (amended): for every truthy `data` value the count operation returns
the length when the value is a list or dict and `1` otherwise; falsy data
(absent, zero, empty string/list/dict, `False`) raises `ToolExecutionError`. -/
theorem c8_count_behaviour :
    (∀ v : PyVal, v.truthy = true → calcCountOp (some v) = Except.ok (pyCountLen v)) ∧
    (∀ v : PyVal, v.truthy = false →
        calcCountOp (some v) = Except.error "data is required for count operation") ∧
    calcCountOp none = Except.error "data is required for count operation" := by
  refine ⟨?_, ?_, rfl⟩
  · intro v hv
    cases v <;> simp_all [calcCountOp, pyCountLen]
  · intro v hv
    cases v <;> simp_all [calcCountOp]

/-- C8 witness: the truthy clause applied at the two-element list
`[5, "a"]`, whose count is its length 2. -/
theorem c8_count_behaviour_witness :
    calcCountOp (some (PyVal.pylist [PyVal.int 5, PyVal.str "a"])) = Except.ok 2 :=
  c8_count_behaviour.1 (PyVal.pylist [PyVal.int 5, PyVal.str "a"]) rfl

/-! ### Claim C9 — CalculationTool percentage -/

/-- C9: for every present part and total, the percentage operation returns
`round((part/total)*100, 2)` when the total is nonzero and `0` when the
total is zero — in particular `percentage(0, 0) = 0`, and the division
branch is guarded by `total == 0` so no division-by-zero is reachable. -/
theorem c9_percentage_total_zero_safe (p t : ℚ) :
    calcPercentageOp (some p) (some t)
      = Except.ok (round2 (if t = 0 then 0 else p / t * 100)) ∧
    calcPercentageOp (some p) (some 0) = Except.ok 0 ∧
    calcPercentageOp (some 0) (some 0) = Except.ok 0 := by
  refine ⟨rfl, ?_, ?_⟩ <;> simp [calcPercentageOp, round2]

/-! ### Claim C10 — tool registry round-trip -/

/-- Usage counter after a run of successful `execute_tool` calls (helper
characterization used by the C10 theorem). -/
theorem execToolN_usage (t : SimpleTool) (params : List (String × PyVal)) :
    ∀ (n : Nat) (r : ToolRegistry) (tl : SimpleTool) (cnt : Nat),
    getTool r t.name = some tl → dictGet t.name r.toolUsageStats = some cnt →
    dictGet t.name (execToolN t.name params n r).toolUsageStats = some (cnt + n) := by
  intro n
  induction n with
  | zero => intro r tl cnt _ hstats; simpa using hstats
  | succ m ih =>
      intro r tl cnt htool hstats
      have hexec : executeTool r t.name params =
          Except.ok ((safeExecute tl params).1,
            { tools := dictInsert t.name (safeExecute tl params).2 r.tools,
              toolUsageStats := dictIncr t.name r.toolUsageStats }) := by
        rw [executeTool, htool]
      rw [show execToolN t.name params (m + 1) r
            = execToolN t.name params m
                { tools := dictInsert t.name (safeExecute tl params).2 r.tools,
                  toolUsageStats := dictIncr t.name r.toolUsageStats } from by
        rw [execToolN, hexec]]
      have h1 : getTool
          { tools := dictInsert t.name (safeExecute tl params).2 r.tools,
            toolUsageStats := dictIncr t.name r.toolUsageStats } t.name
          = some (safeExecute tl params).2 := by
        show dictGet t.name (dictInsert t.name (safeExecute tl params).2 r.tools) = _
        exact dictGet_dictInsert_self _ _ _
      have h2 : dictGet t.name (dictIncr t.name r.toolUsageStats) = some (cnt + 1) := by
        rw [dictGet_dictIncr_self, hstats]
        rfl
      have := ih _ _ (cnt + 1) h1 h2
      rw [this]
      congr 1
      omega

/-- C10: on a fresh registry, registering one tool makes `get_tool_names`
return exactly that name; `register_tool` resets the usage counter to zero
from any prior registry state; N successful `execute_tool` calls drive the
usage counter to exactly N; and `execute_tool` on an unregistered name
raises `ToolExecutionError` and leaves the usage stats untouched. -/
theorem c10_registry_roundtrip (t : SimpleTool) (N : Nat) (bad : String)
    (params : List (String × PyVal)) (r : ToolRegistry) (hbad : bad ≠ t.name) :
    getToolNames (registerTool emptyRegistry t) = [t.name] ∧
    dictGet t.name (getUsageStats (registerTool r t)) = some 0 ∧
    dictGet t.name (getUsageStats
        (execToolN t.name params N (registerTool emptyRegistry t))) = some N ∧
    executeTool (registerTool emptyRegistry t) bad params
      = Except.error ("Tool '" ++ bad ++ "' not found") ∧
    getUsageStats (execToolN bad params 1 (registerTool emptyRegistry t))
      = getUsageStats (registerTool emptyRegistry t) := by
  have hbadTool : getTool (registerTool emptyRegistry t) bad = none := by
    show dictGet bad [(t.name, t)] = none
    simp [dictGet, Ne.symm hbad, hbad]
  have hbadExec : executeTool (registerTool emptyRegistry t) bad params
      = Except.error ("Tool '" ++ bad ++ "' not found") := by
    rw [executeTool, hbadTool]
  refine ⟨rfl, ?_, ?_, hbadExec, ?_⟩
  · show dictGet t.name (dictInsert t.name 0 r.toolUsageStats) = some 0
    exact dictGet_dictInsert_self _ _ _
  · have := execToolN_usage t params N (registerTool emptyRegistry t) t 0
      (dictGet_dictInsert_self t.name t []) (dictGet_dictInsert_self t.name 0 [])
    simpa using this
  · rw [execToolN, hbadExec]

/-- Membership origin across `updateFirst`: every element of the updated list
is either an original element or the image of a matching original element. -/
theorem mem_updateFirst {α : Type} {p : α → Bool} {f : α → α} :
    ∀ {l : List α} {y : α}, y ∈ updateFirst p f l →
    y ∈ l ∨ ∃ x ∈ l, p x = true ∧ y = f x := by
  intro l
  induction l with
  | nil => intro y hy; simp [updateFirst] at hy
  | cons x xs ih =>
      intro y hy
      by_cases h : p x
      · rw [updateFirst, if_pos h] at hy
        rcases List.mem_cons.mp hy with rfl | hy'
        · exact Or.inr ⟨x, List.mem_cons_self x xs, h, rfl⟩
        · exact Or.inl (List.mem_cons_of_mem x hy')
      · rw [updateFirst, if_neg h] at hy
        rcases List.mem_cons.mp hy with rfl | hy'
        · exact Or.inl (List.mem_cons_self y xs)
        · rcases ih hy' with h1 | ⟨x', hx', hpx', rfl⟩
          · exact Or.inl (List.mem_cons_of_mem x h1)
          · exact Or.inr ⟨x', List.mem_cons_of_mem x hx', hpx', rfl⟩

/-! ### Claim C6 — failure channels: absorbed tool failures vs raised errors -/

/-- C6: (i) `execute_tool` raises only when the tool name is unregistered;
(ii) for a registered tool it always returns a result dictionary — a tool
exception is absorbed by `safe_execute` into `{success: false, error: ...}`,
never re-raised; (iii) an awaited task that returns a dictionary (as opposed
to raising) never produces a `FAILED` execution — the Failed/retry path is
unreachable from a returned `{success: false}`; and (iv) concretely, a
single-task plan whose tool returns `{success: false}` ends `COMPLETED`,
is counted by `tasks_executed`, and contributes nothing to the synthesis
input `successful_results`. -/
theorem c6_tool_failure_absorbed :
    (∀ (r : ToolRegistry) (name : String) (params : List (String × PyVal)),
        getTool r name = none →
        executeTool r name params = Except.error ("Tool '" ++ name ++ "' not found")) ∧
    (∀ (r : ToolRegistry) (name : String) (params : List (String × PyVal)) (tl : SimpleTool),
        getTool r name = some tl →
        ∃ res r', executeTool r name params = Except.ok (res, r') ∧
          (∀ e, tl.run params = Except.error e →
            res.success = false ∧ res.error = some e)) ∧
    (∀ (env : SchedEnv) (s : LoopState) (res : ToolResult),
        (env s.tick).2 = Except.ok res →
        ∀ te' ∈ (finishTask env s).execs, te'.status = .failed → te' ∈ s.execs) ∧
    ((runLoop 3 failProbeEnv 3 (initState [failProbeTask])).2.1.execs.map
        TaskExecution.status = [ExecutionStatus.completed] ∧
      tasksExecuted (runLoop 3 failProbeEnv 3 (initState [failProbeTask])).2.1 = 1 ∧
      (successfulResults
        (runLoop 3 failProbeEnv 3 (initState [failProbeTask])).2.1.execs).isEmpty = true ∧
      (runLoop 3 failProbeEnv 3 (initState [failProbeTask])).2.2 = true) := by
  refine ⟨?_, ?_, ?_, by decide⟩
  · intro r name params h
    rw [executeTool, h]
  · intro r name params tl h
    rw [executeTool, h]
    refine ⟨(safeExecute tl params).1, _, rfl, ?_⟩
    intro e he
    simp [safeExecute, he]
  · intro env s res hE te' hte' hst
    by_cases hne : s.running.isEmpty
    · rw [finishTask, if_pos hne] at hte'
      exact hte'
    · rw [finishTask, if_neg hne] at hte'
      simp only [hE] at hte'
      rcases mem_updateFirst hte' with h | ⟨x, hx, _, rfl⟩
      · exact h
      · simp at hst

/-- C6 witness: the unregistered-name clause applied to the empty registry. -/
theorem c6_tool_failure_absorbed_witness :
    executeTool emptyRegistry "calculation" []
      = Except.error ("Tool '" ++ "calculation" ++ "' not found") :=
  c6_tool_failure_absorbed.1 emptyRegistry "calculation" [] rfl

/-- C10 witness: concrete registry with one tool, two successful calls. -/
theorem c10_registry_roundtrip_witness :
    dictGet "calc" (getUsageStats (execToolN "calc" [] 2
      (registerTool emptyRegistry ⟨"calc", 0, fun _ => Except.ok (PyVal.int 1)⟩)))
      = some 2 :=
  (c10_registry_roundtrip ⟨"calc", 0, fun _ => Except.ok (PyVal.int 1)⟩ 2 "missing" []
    emptyRegistry (by decide)).2.2.1

/-! ### Loop start-up and exit analysis -/

theorem initState_inv (tasks : List SubTask) (maxC : Nat) :
    LoopInv tasks maxC (initState tasks) := by
  have hpending : ∀ te ∈ (initState tasks).execs, te.status = .pending := by
    intro te hte
    obtain ⟨t, _, rfl⟩ := List.mem_map.mp hte
    rfl
  refine ⟨?_, ?_, ?_, ?_, ?_, ?_, ?_, ?_, ?_, ?_, ?_⟩
  · rw [initState, List.map_map]
    exact List.map_id tasks
  · intro id hid; simp [initState] at hid
  · exact List.nodup_nil
  · intro id hid; simp [initState] at hid
  · exact List.nodup_nil
  · intro id hid; simp [initState] at hid
  · intro te hte
    constructor
    · intro h; simp [initState] at h
    · intro h
      rw [hpending te hte] at h
      rcases h with h | h <;> simp at h
  · intro te hte h
    rw [hpending te hte] at h
    simp at h
  · intro te hte
    obtain ⟨t, _, rfl⟩ := List.mem_map.mp hte
    show (0 : Nat) ≤ 3
    omega
  · intro te hte h
    rw [hpending te hte] at h
    simp at h
  · show (List.length [] : Nat) ≤ maxC
    simp

theorem initState_measure (tasks : List SubTask) :
    loopMeasure (initState tasks) = 4 * tasks.length := by
  induction tasks with
  | nil => rfl
  | cons t ts ih =>
      have : loopMeasure (initState (t :: ts)) = 4 + loopMeasure (initState ts) := by
        simp [loopMeasure, initState, execContribution]
      rw [this, ih]
      simp [List.length_cons]
      ring

theorem exit_all_terminal {tasks : List SubTask} {maxC : Nat} {sf : LoopState}
    (_hnodup : (tasks.map SubTask.id).Nodup) (inv : LoopInv tasks maxC sf)
    (hlen : sf.execs.length ≤ sf.completed.length) :
    ∀ te ∈ sf.execs, te.status = .completed ∨
      (te.status = .failed ∧ te.retryCount = te.maxRetries) := by
  have hsub : sf.completed ⊆ execIds sf := fun id h => inv.completedSub id h
  have hsubperm := List.subperm_of_subset inv.completedNodup hsub
  have hlen' : (execIds sf).length ≤ sf.completed.length := by
    rw [execIds, List.length_map]
    exact hlen
  have hperm := hsubperm.perm_of_length_le hlen'
  intro te hte
  have hid : te.task.id ∈ sf.completed :=
    hperm.mem_iff.mpr (List.mem_map_of_mem (fun te => te.task.id) hte)
  rcases (inv.statusAccounted te hte).mp hid with h | h
  · exact Or.inl h
  · exact Or.inr ⟨h, inv.failedExhausted te hte h⟩

theorem no_deadlock_of_rank {tasks : List SubTask} {maxC : Nat} {sf : LoopState}
    {rank : String → Nat}
    (hnodup : (tasks.map SubTask.id).Nodup) (inv : LoopInv tasks maxC sf)
    (hrank : ∀ t ∈ tasks, ∀ d ∈ t.dependencies,
      (∃ t' ∈ tasks, t'.id = d) ∧ rank d < rank t.id)
    (hrun : sf.running = []) (hready : getReadyTasks sf = []) :
    sf.execs.length ≤ sf.completed.length := by
  by_contra hlt
  -- some execution id is not yet accounted for
  have hexists : ∃ te ∈ sf.execs, te.task.id ∉ sf.completed := by
    by_contra hall
    push_neg at hall
    have hsub : execIds sf ⊆ sf.completed := by
      intro id hid
      obtain ⟨te, hte, rfl⟩ := List.mem_map.mp hid
      exact hall te hte
    have hnd : (execIds sf).Nodup := exec_keys_nodup hnodup inv
    have := (List.subperm_of_subset hnd hsub).length_le
    rw [execIds, List.length_map] at this
    omega
  obtain ⟨te₁, hte₁, hnc₁⟩ := hexists
  -- pick a pending id of minimal rank
  have hS : te₁.task.id ∈ (execIds sf).toFinset.filter (fun id => id ∉ sf.completed) := by
    rw [Finset.mem_filter, List.mem_toFinset]
    exact ⟨List.mem_map_of_mem (fun te => te.task.id) hte₁, hnc₁⟩
  obtain ⟨id₀, hid₀, hmin⟩ := Finset.exists_min_image _ rank ⟨te₁.task.id, hS⟩
  rw [Finset.mem_filter, List.mem_toFinset] at hid₀
  obtain ⟨hid₀ids, hid₀nc⟩ := hid₀
  obtain ⟨te₀, hte₀, rfl⟩ := List.mem_map.mp hid₀ids
  have htask₀ : te₀.task ∈ tasks := by
    rw [← inv.tasksEq]
    exact List.mem_map_of_mem TaskExecution.task hte₀
  -- all of its dependencies are accounted for
  have hdeps : ∀ d ∈ te₀.task.dependencies, d ∈ sf.completed := by
    intro d hd
    by_contra hdnc
    obtain ⟨⟨t', ht', htd⟩, hlt'⟩ := hrank te₀.task htask₀ d hd
    have ht'exec : d ∈ execIds sf := by
      rw [execIds]
      have : t' ∈ sf.execs.map TaskExecution.task := inv.tasksEq ▸ ht'
      obtain ⟨te', hte', hte'eq⟩ := List.mem_map.mp this
      exact htd ▸ hte'eq ▸ List.mem_map_of_mem (fun te => te.task.id) hte'
    have hdS : d ∈ (execIds sf).toFinset.filter (fun id => id ∉ sf.completed) := by
      rw [Finset.mem_filter, List.mem_toFinset]
      exact ⟨ht'exec, hdnc⟩
    exact absurd hlt' (not_lt.mpr (hmin d hdS))
  -- hence it is ready, contradicting the empty ready list
  have hstat : te₀.status ≠ .completed ∧ te₀.status ≠ .failed := by
    constructor <;> intro h <;>
      exact hid₀nc ((inv.statusAccounted te₀ hte₀).mpr (by simp [h]))
  have hcond : (!(te₀.status == .completed || te₀.status == .failed
        || sf.running.contains te₀.task.id)
      && te₀.task.dependencies.all (fun d => sf.completed.contains d)) = true := by
    simp only [Bool.and_eq_true, Bool.not_eq_true', Bool.or_eq_false_iff,
      beq_eq_false_iff_ne, ne_eq, List.all_eq_true, List.elem_eq_mem,
      decide_eq_true_eq, decide_eq_false_iff_not]
    exact ⟨⟨⟨hstat.1, hstat.2⟩, by simp [hrun]⟩, hdeps⟩
  have hmem : te₀ ∈ getReadyTasks sf := by
    rw [getReadyTasks, mem_sortDesc]
    exact List.mem_filter.mpr ⟨hte₀, hcond⟩
  rw [hready] at hmem
  simp at hmem

theorem finishTask_completed_origin (env : SchedEnv) (s : LoopState) :
    ∀ id ∈ (finishTask env s).completed, id ∈ s.completed ∨ id ∈ s.running := by
  intro id hid
  by_cases hne : s.running.isEmpty
  · rw [finishTask, if_pos hne] at hid
    exact Or.inl hid
  · have hk : s.running.getD ((env s.tick).1 % s.running.length) "" ∈ s.running :=
      getD_mod_mem (by simpa [List.isEmpty_iff] using hne) _
    rw [finishTask, if_neg hne] at hid
    rcases hE : (env s.tick).2 with e | res
    · simp only [hE] at hid
      rcases hfind : s.execs.find? (fun te => te.task.id ==
          s.running.getD ((env s.tick).1 % s.running.length) "") with _ | te
      · simp only [hfind] at hid
        exact Or.inl hid
      · simp only [hfind] at hid
        by_cases hR : te.retryCount < te.maxRetries
        · rw [if_pos hR] at hid
          exact Or.inl hid
        · rw [if_neg hR] at hid
          rcases mem_setInsert.mp hid with rfl | hold
          · exact Or.inr hk
          · exact Or.inl hold
    · simp only [hE] at hid
      rcases mem_setInsert.mp hid with rfl | hold
      · exact Or.inr hk
      · exact Or.inl hold

theorem finishTask_running_sub (env : SchedEnv) (s : LoopState) :
    ∀ id ∈ (finishTask env s).running, id ∈ s.running := by
  intro id hid
  by_cases hne : s.running.isEmpty
  · rw [finishTask, if_pos hne] at hid
    exact hid
  · rw [finishTask, if_neg hne] at hid
    rcases hE : (env s.tick).2 with e | res
    · simp only [hE] at hid
      rcases hfind : s.execs.find? (fun te => te.task.id ==
          s.running.getD ((env s.tick).1 % s.running.length) "") with _ | te
      · simp only [hfind] at hid
        exact List.mem_of_mem_erase hid
      · simp only [hfind] at hid
        by_cases hR : te.retryCount < te.maxRetries
        · rw [if_pos hR] at hid
          exact List.mem_of_mem_erase hid
        · rw [if_neg hR] at hid
          exact List.mem_of_mem_erase hid
    · simp only [hE] at hid
      exact List.mem_of_mem_erase hid

theorem finishTask_running_len (env : SchedEnv) (s : LoopState) :
    (finishTask env s).running.length ≤ s.running.length := by
  by_cases hne : s.running.isEmpty
  · rw [finishTask, if_pos hne]
  · rw [finishTask, if_neg hne]
    rcases hE : (env s.tick).2 with e | res
    · simp only [hE]
      rcases hfind : s.execs.find? (fun te => te.task.id ==
          s.running.getD ((env s.tick).1 % s.running.length) "") with _ | te
      · simp only [hfind]
        exact (List.erase_sublist _ _).length_le
      · simp only [hfind]
        by_cases hR : te.retryCount < te.maxRetries
        · rw [if_pos hR]
          exact (List.erase_sublist _ _).length_le
        · rw [if_neg hR]
          exact (List.erase_sublist _ _).length_le
    · simp only [hE]
      exact (List.erase_sublist _ _).length_le

theorem startPhase_completed_eq (maxC : Nat) :
    ∀ (ready : List TaskExecution) (s : LoopState) tr rem sf,
    startPhase maxC ready s = (tr, rem, sf) → sf.completed = s.completed := by
  intro ready
  induction ready with
  | nil =>
      intro s tr rem sf heq
      simp only [startPhase, Prod.mk.injEq] at heq
      rw [← heq.2.2]
  | cons te rest ih =>
      intro s tr rem sf heq
      by_cases hcap : s.running.length < maxC
      · rcases hrec : startPhase maxC rest (startTask te s) with ⟨tr', rem', sf'⟩
        have heq' : (tr, rem, sf) = ((startTask te s) :: tr', rem', sf') := by
          rw [← heq]
          simp only [startPhase, if_pos hcap, hrec]
        simp only [Prod.mk.injEq] at heq'
        obtain ⟨rfl, rfl, rfl⟩ := heq'
        exact (ih (startTask te s) _ _ _ hrec).trans rfl
      · have heq' : (tr, rem, sf) = ([], te :: rest, s) := by
          rw [← heq]
          simp only [startPhase, if_neg hcap]
        simp only [Prod.mk.injEq] at heq'
        obtain ⟨rfl, rfl, rfl⟩ := heq'
        rfl

theorem startPhase_running_origin (maxC : Nat) :
    ∀ (ready : List TaskExecution) (s : LoopState) tr rem sf,
    startPhase maxC ready s = (tr, rem, sf) →
    ∀ id ∈ sf.running, id ∈ s.running ∨ ∃ te ∈ ready, te.task.id = id := by
  intro ready
  induction ready with
  | nil =>
      intro s tr rem sf heq
      simp only [startPhase, Prod.mk.injEq] at heq
      rw [← heq.2.2]
      intro id hid
      exact Or.inl hid
  | cons te rest ih =>
      intro s tr rem sf heq
      by_cases hcap : s.running.length < maxC
      · rcases hrec : startPhase maxC rest (startTask te s) with ⟨tr', rem', sf'⟩
        have heq' : (tr, rem, sf) = ((startTask te s) :: tr', rem', sf') := by
          rw [← heq]
          simp only [startPhase, if_pos hcap, hrec]
        simp only [Prod.mk.injEq] at heq'
        obtain ⟨rfl, rfl, rfl⟩ := heq'
        intro id hid
        rcases ih _ _ _ _ hrec id hid with h | ⟨te', hte', rfl⟩
        · -- id is in the running set of `startTask te s`
          simp only [startTask] at h
          by_cases hc : te.task.id ∈ s.running
          · have hc' : s.running.contains te.task.id = true := by
              simpa [List.elem_eq_mem] using hc
            rw [if_pos hc'] at h
            exact Or.inl h
          · have hc' : ¬ s.running.contains te.task.id = true := by
              simpa [List.elem_eq_mem] using hc
            rw [if_neg hc'] at h
            rcases List.mem_append.mp h with h' | h'
            · exact Or.inl h'
            · have hid' : id = te.task.id := by simpa using h'
              exact Or.inr ⟨te, List.mem_cons_self te rest, hid'.symm⟩
        · exact Or.inr ⟨te', List.mem_cons_of_mem te hte', rfl⟩
      · have heq' : (tr, rem, sf) = ([], te :: rest, s) := by
          rw [← heq]
          simp only [startPhase, if_neg hcap]
        simp only [Prod.mk.injEq] at heq'
        obtain ⟨rfl, rfl, rfl⟩ := heq'
        intro id hid
        exact Or.inl hid

theorem task_uniq {tasks : List SubTask} (hnodup : (tasks.map SubTask.id).Nodup)
    {t t' : SubTask} (ht : t ∈ tasks) (ht' : t' ∈ tasks) (h : t.id = t'.id) : t = t' :=
  List.inj_on_of_nodup_map hnodup ht ht' h

theorem loopBody_blocked {tasks : List SubTask} {maxC : Nat} {s : LoopState}
    (hnodup : (tasks.map SubTask.id).Nodup) (inv : LoopInv tasks maxC s)
    (env : SchedEnv) (B : String → Prop)
    (hB : ∀ t ∈ tasks, B t.id → ∃ d ∈ t.dependencies, B d ∨ ∀ t' ∈ tasks, t'.id ≠ d)
    (hBs : ∀ id, B id → id ∉ s.completed ∧ id ∉ s.running) :
    ∀ tr s' cont, loopBody maxC env s = (tr, s', cont) →
    ∀ id, B id → id ∉ s'.completed ∧ id ∉ s'.running := by
  have hreadyB : ∀ te ∈ getReadyTasks s, ¬ B te.task.id := by
    intro te hte hBte
    obtain ⟨hmem, _, _, _, hdeps⟩ := (getReadyTasks_pre hnodup inv).2 te hte
    have htask : te.task ∈ tasks :=
      inv.tasksEq ▸ List.mem_map_of_mem TaskExecution.task hmem
    obtain ⟨d, hd, hcase⟩ := hB te.task htask hBte
    have hdC : d ∈ s.completed := hdeps d hd
    rcases hcase with hBd | hdang
    · exact (hBs d hBd).1 hdC
    · have hdids : d ∈ execIds s := inv.completedSub d hdC
      obtain ⟨te', hte', rfl⟩ := List.mem_map.mp hdids
      exact hdang te'.task
        (inv.tasksEq ▸ List.mem_map_of_mem TaskExecution.task hte') rfl
  intro tr s' cont heq
  rcases hsp : startPhase maxC (getReadyTasks s) s with ⟨tr1, rem, s1⟩
  have hB1 : ∀ id, B id → id ∉ s1.completed ∧ id ∉ s1.running := by
    intro id hBid
    constructor
    · rw [startPhase_completed_eq maxC _ _ _ _ _ hsp]
      exact (hBs id hBid).1
    · intro hmem
      rcases startPhase_running_origin maxC _ _ _ _ _ hsp id hmem with h | ⟨te, hte, rfl⟩
      · exact (hBs id hBid).2 h
      · exact hreadyB te hte hBid
  by_cases hrun : s1.running.isEmpty
  · by_cases hrem : rem.isEmpty
    · have heq' : (tr, s', cont) = (tr1, s1, false) := by
        rw [← heq]
        simp only [loopBody, hsp, if_pos hrun, if_pos hrem]
      simp only [Prod.mk.injEq] at heq'
      obtain ⟨rfl, rfl, rfl⟩ := heq'
      exact hB1
    · have heq' : (tr, s', cont) = (tr1, s1, true) := by
        rw [← heq]
        simp only [loopBody, hsp, if_pos hrun, if_neg hrem]
      simp only [Prod.mk.injEq] at heq'
      obtain ⟨rfl, rfl, rfl⟩ := heq'
      exact hB1
  · have heq' : (tr, s', cont) = (tr1 ++ [finishTask env s1], finishTask env s1, true) := by
      rw [← heq]
      simp only [loopBody, hsp, if_neg hrun]
    simp only [Prod.mk.injEq] at heq'
    obtain ⟨rfl, rfl, rfl⟩ := heq'
    intro id hBid
    constructor
    · intro hmem
      rcases finishTask_completed_origin env s1 id hmem with h | h
      · exact (hB1 id hBid).1 h
      · exact (hB1 id hBid).2 h
    · intro hmem
      exact (hB1 id hBid).2 (finishTask_running_sub env s1 id hmem)

theorem runLoop_blocked {tasks : List SubTask} {maxC : Nat} (env : SchedEnv)
    (hnodup : (tasks.map SubTask.id).Nodup) (B : String → Prop)
    (hB : ∀ t ∈ tasks, B t.id → ∃ d ∈ t.dependencies, B d ∨ ∀ t' ∈ tasks, t'.id ≠ d) :
    ∀ (fuel : Nat) (s : LoopState), LoopInv tasks maxC s →
    (∀ id, B id → id ∉ s.completed ∧ id ∉ s.running) →
    ∀ tr sf fin, runLoop maxC env fuel s = (tr, sf, fin) →
    ∀ id, B id → id ∉ sf.completed ∧ id ∉ sf.running := by
  intro fuel
  induction fuel with
  | zero =>
      intro s _ hBs tr sf fin heq
      simp only [runLoop, Prod.mk.injEq] at heq
      obtain ⟨rfl, rfl, rfl⟩ := heq
      exact hBs
  | succ n ih =>
      intro s inv hBs tr sf fin heq
      by_cases hdone : s.execs.length ≤ s.completed.length
      · have heq' : (tr, sf, fin) = ([], s, true) := by
          rw [← heq]
          simp only [runLoop, if_pos hdone]
        simp only [Prod.mk.injEq] at heq'
        obtain ⟨rfl, rfl, rfl⟩ := heq'
        exact hBs
      · rcases hb : loopBody maxC env s with ⟨tr1, s1, cont⟩
        obtain ⟨inv1, _, _, _⟩ := loopBody_spec hnodup inv env _ _ _ hb
        have hB1 := loopBody_blocked hnodup inv env B hB hBs _ _ _ hb
        cases cont with
        | true =>
            rcases hr : runLoop maxC env n s1 with ⟨tr2, s2, fin2⟩
            have heq' : (tr, sf, fin) = (tr1 ++ tr2, s2, fin2) := by
              rw [← heq]
              simp [runLoop, if_neg hdone, hb, hr]
            simp only [Prod.mk.injEq] at heq'
            obtain ⟨rfl, rfl, rfl⟩ := heq'
            exact ih s1 inv1 hB1 _ _ _ hr
        | false =>
            have heq' : (tr, sf, fin) = (tr1, s1, true) := by
              rw [← heq]
              simp [runLoop, if_neg hdone, hb]
            simp only [Prod.mk.injEq] at heq'
            obtain ⟨rfl, rfl, rfl⟩ := heq'
            exact hB1

theorem tasksExecuted_lt {tasks : List SubTask} {maxC : Nat} {sf : LoopState}
    (hnodup : (tasks.map SubTask.id).Nodup) (inv : LoopInv tasks maxC sf)
    {id₀ : String} (hid₀ : id₀ ∈ execIds sf) (hnc : id₀ ∉ sf.completed) :
    tasksExecuted sf < tasks.length := by
  have hkeys := exec_keys_nodup hnodup inv
  -- the ids of COMPLETED executions form a duplicate-free sub-collection of the completed set
  have hfsub : (sf.execs.filter (fun te => te.status == .completed)).Sublist sf.execs :=
    List.filter_sublist _
  have hfnodup : ((sf.execs.filter (fun te => te.status == .completed)).map
      (fun te => te.task.id)).Nodup :=
    List.Nodup.sublist (hfsub.map _) hkeys
  have hfmem : ∀ id ∈ (sf.execs.filter (fun te => te.status == .completed)).map
      (fun te => te.task.id), id ∈ sf.completed := by
    intro id hid
    obtain ⟨te, hte, rfl⟩ := List.mem_map.mp hid
    obtain ⟨hmem, hcond⟩ := List.mem_filter.mp hte
    exact (inv.statusAccounted te hmem).mpr (Or.inl (by simpa using hcond))
  have h1 : tasksExecuted sf ≤ sf.completed.length := by
    have := (List.subperm_of_subset hfnodup hfmem).length_le
    rw [List.length_map] at this
    exact this
  -- the completed set misses id₀, so it is strictly smaller than the id list
  have hid₀' : id₀ ∈ sf.execs.map (fun te => te.task.id) := hid₀
  have h2 : sf.completed.length < (sf.execs.map (fun te => te.task.id)).length := by
    have hsub : sf.completed ⊆ (sf.execs.map (fun te => te.task.id)).erase id₀ := by
      intro x hx
      rw [hkeys.mem_erase_iff]
      exact ⟨fun h => hnc (h ▸ hx), inv.completedSub x hx⟩
    have hle := (List.subperm_of_subset inv.completedNodup hsub).length_le
    rw [List.length_erase_of_mem hid₀'] at hle
    have hpos : 0 < (sf.execs.map (fun te => te.task.id)).length :=
      List.length_pos.mpr (List.ne_nil_of_mem hid₀')
    omega
  have h3 : (sf.execs.map (fun te => te.task.id)).length = tasks.length := by
    rw [exec_keys_eq inv, List.length_map]
  omega

/-! ### Claims C2–C5 — orchestrator execution loop -/

/-- C2: in every state observed during any run of the execution loop on a
fresh plan (any scheduling environment, any fuel, any concurrency ceiling),
a `RUNNING` task execution has all of its dependency ids already in the
`completed_tasks` set, and that set contains exactly the ids of executions
that are `COMPLETED` or terminal-`FAILED` — exhausted-retry failures satisfy
downstream dependencies exactly like successes. -/
theorem c2_running_tasks_have_completed_deps (tasks : List SubTask) (maxC : Nat)
    (env : SchedEnv) (fuel : Nat)
    (hnodup : (tasks.map SubTask.id).Nodup) :
    ∀ σ ∈ observedStates maxC env fuel (initState tasks),
      (∀ te ∈ σ.execs, te.status = .running →
        ∀ d ∈ te.task.dependencies, d ∈ σ.completed) ∧
      (∀ te ∈ σ.execs, te.task.id ∈ σ.completed ↔
        (te.status = .completed ∨ te.status = .failed)) ∧
      (∀ te ∈ σ.execs, te.status = .failed → te.retryCount = te.maxRetries) := by
  have hinvAll : ∀ σ ∈ observedStates maxC env fuel (initState tasks),
      LoopInv tasks maxC σ := by
    rcases hr : runLoop maxC env fuel (initState tasks) with ⟨tr, sf, fin⟩
    obtain ⟨_, trInv, _, _⟩ :=
      runLoop_spec env hnodup fuel (initState tasks) (initState_inv tasks maxC) _ _ _ hr
    intro σ hσ
    rw [observedStates, hr] at hσ
    rcases List.mem_cons.mp hσ with rfl | hσ'
    · exact initState_inv tasks maxC
    · exact trInv σ hσ'
  intro σ hσ
  have inv := hinvAll σ hσ
  exact ⟨fun te hte hst => (inv.runningStatus te hte hst).2,
    fun te hte => inv.statusAccounted te hte,
    fun te hte => inv.failedExhausted te hte⟩

/-- C2 witness: over the concrete run of the two-task chain plan, every
observed state passes the executable dependency-ordering check. -/
theorem c2_running_tasks_have_completed_deps_witness :
    (observedStates 3 failProbeEnv 9 (initState [chainTaskA, chainTaskB])).all
      (fun σ => σ.execs.all (fun te =>
        !(te.status == ExecutionStatus.running)
          || te.task.dependencies.all (fun d => σ.completed.contains d))) = true := by
  rw [List.all_eq_true]
  intro σ hσ
  rw [List.all_eq_true]
  intro te hte
  have h := (c2_running_tasks_have_completed_deps [chainTaskA, chainTaskB] 3 failProbeEnv 9
    (by decide) σ hσ).1 te hte
  by_cases hst : te.status = .running
  · simp only [Bool.or_eq_true, List.all_eq_true, List.elem_eq_mem, decide_eq_true_eq]
    exact Or.inr (fun d hd => h hst d hd)
  · simp [hst]

/-- C5: in every state observed during any run of the execution loop on a
fresh plan — including the states between individual task starts inside one
iteration — the number of in-flight (`RUNNING`) tasks never exceeds the
configured `max_concurrent_tasks`. -/
theorem c5_concurrency_ceiling (tasks : List SubTask) (maxC : Nat)
    (env : SchedEnv) (fuel : Nat)
    (hnodup : (tasks.map SubTask.id).Nodup) :
    ∀ σ ∈ observedStates maxC env fuel (initState tasks),
      σ.running.length ≤ maxC ∧
      (∀ te ∈ σ.execs, te.status = .running → te.task.id ∈ σ.running) := by
  have hinvAll : ∀ σ ∈ observedStates maxC env fuel (initState tasks),
      LoopInv tasks maxC σ := by
    rcases hr : runLoop maxC env fuel (initState tasks) with ⟨tr, sf, fin⟩
    obtain ⟨_, trInv, _, _⟩ :=
      runLoop_spec env hnodup fuel (initState tasks) (initState_inv tasks maxC) _ _ _ hr
    intro σ hσ
    rw [observedStates, hr] at hσ
    rcases List.mem_cons.mp hσ with rfl | hσ'
    · exact initState_inv tasks maxC
    · exact trInv σ hσ'
  intro σ hσ
  have inv := hinvAll σ hσ
  exact ⟨inv.runningBound, fun te hte hst => (inv.runningStatus te hte hst).1⟩

/-- C5 witness: over the concrete run of the two-task chain plan, every
observed state keeps at most 3 tasks in flight. -/
theorem c5_concurrency_ceiling_witness :
    (observedStates 3 failProbeEnv 9 (initState [chainTaskA, chainTaskB])).all
      (fun σ => decide (σ.running.length ≤ 3)) = true := by
  rw [List.all_eq_true]
  intro σ hσ
  exact decide_eq_true ((c5_concurrency_ceiling [chainTaskA, chainTaskB] 3 failProbeEnv 9
    (by decide)) σ hσ).1

/-- C3: on a plan whose dependency graph is acyclic (witnessed by a rank
function decreasing along dependency edges) with every referenced id present,
the loop run with fuel `4·n + 1` exits by itself (flag `true`: enough fuel
for every task to exhaust its `max_retries = 3` budget), and every task
execution ends terminal: `COMPLETED`, or `FAILED` with retries exhausted. -/
theorem c3_acyclic_plans_terminate (tasks : List SubTask) (maxC : Nat)
    (env : SchedEnv) (rank : String → Nat)
    (hnodup : (tasks.map SubTask.id).Nodup) (hmax : 1 ≤ maxC)
    (hrank : ∀ t ∈ tasks, ∀ d ∈ t.dependencies,
      (∃ t' ∈ tasks, t'.id = d) ∧ rank d < rank t.id) :
    (runLoop maxC env (4 * tasks.length + 1) (initState tasks)).2.2 = true ∧
    ∀ te ∈ (runLoop maxC env (4 * tasks.length + 1) (initState tasks)).2.1.execs,
      te.status = .completed ∨
        (te.status = .failed ∧ te.retryCount = te.maxRetries) := by
  rcases hr : runLoop maxC env (4 * tasks.length + 1) (initState tasks) with ⟨tr, sf, fin⟩
  obtain ⟨invf, _, hfin, hexit⟩ :=
    runLoop_spec env hnodup (4 * tasks.length + 1) (initState tasks)
      (initState_inv tasks maxC) _ _ _ hr
  have hfin' : fin = true := by
    apply hfin hmax
    rw [initState_measure]
    omega
  subst hfin'
  have hlen : sf.execs.length ≤ sf.completed.length := by
    rcases hexit rfl with h | ⟨hrun, hready⟩
    · exact h
    · exact no_deadlock_of_rank hnodup invf hrank hrun hready
  exact ⟨rfl, exit_all_terminal hnodup invf hlen⟩

/-- C3 witness: the acyclic two-task chain with rank a↦0, b↦1 under the
always-raising environment (which exercises the retry path to exhaustion). -/
theorem c3_acyclic_plans_terminate_witness :
    (runLoop 3 failProbeEnv (4 * [chainTaskA, chainTaskB].length + 1)
        (initState [chainTaskA, chainTaskB])).2.2 = true ∧
    ∀ te ∈ (runLoop 3 failProbeEnv (4 * [chainTaskA, chainTaskB].length + 1)
        (initState [chainTaskA, chainTaskB])).2.1.execs,
      te.status = .completed ∨
        (te.status = .failed ∧ te.retryCount = te.maxRetries) :=
  c3_acyclic_plans_terminate [chainTaskA, chainTaskB] 3 failProbeEnv
    (fun id => if id = "a" then 0 else 1) (by decide) (by decide) (by decide)

/-- C4: on a plan whose dependency graph has a cycle or a dangling
dependency id, the loop still exits with fuel `4·n + 1` (the deadlock check
breaks out instead of spinning forever), and the number of `COMPLETED`
executions — the returned `tasks_executed` count — is strictly below the
number of sub-tasks. -/
theorem c4_bad_graphs_exit_incomplete (tasks : List SubTask) (maxC : Nat)
    (env : SchedEnv)
    (hnodup : (tasks.map SubTask.id).Nodup) (hmax : 1 ≤ maxC)
    (hbad : HasDependencyCycle tasks ∨ HasDanglingDependency tasks) :
    (runLoop maxC env (4 * tasks.length + 1) (initState tasks)).2.2 = true ∧
    tasksExecuted (runLoop maxC env (4 * tasks.length + 1) (initState tasks)).2.1
      < tasks.length := by
  rcases hr : runLoop maxC env (4 * tasks.length + 1) (initState tasks) with ⟨tr, sf, fin⟩
  obtain ⟨invf, _, hfin, _⟩ :=
    runLoop_spec env hnodup (4 * tasks.length + 1) (initState tasks)
      (initState_inv tasks maxC) _ _ _ hr
  have hfin' : fin = true := by
    apply hfin hmax
    rw [initState_measure]
    omega
  subst hfin'
  refine ⟨rfl, ?_⟩
  rcases hbad with ⟨c, hcne, hcyc⟩ | ⟨t, ht, d, hd, hdang⟩
  · -- a cycle: its ids can never be started, completed, or terminally failed
    set B : String → Prop := fun id => ∃ i, ∃ _ : i < c.length, c.getD i "" = id with hBdef
    have hB : ∀ t ∈ tasks, B t.id → ∃ d ∈ t.dependencies,
        B d ∨ ∀ t' ∈ tasks, t'.id ≠ d := by
      intro t ht hBt
      obtain ⟨i, hi, hci⟩ := hBt
      obtain ⟨t', ht', ht'id, ht'dep⟩ := hcyc i hi
      have : t = t' := task_uniq hnodup ht ht' (hci.symm.trans ht'id.symm)
      subst this
      refine ⟨c.getD ((i + 1) % c.length) "", ht'dep, Or.inl ?_⟩
      exact ⟨(i + 1) % c.length,
        Nat.mod_lt _ (List.length_pos.mpr hcne), rfl⟩
    have hblocked := runLoop_blocked env hnodup B hB (4 * tasks.length + 1)
      (initState tasks) (initState_inv tasks maxC)
      (fun id _ => ⟨by simp [initState], by simp [initState]⟩) _ _ _ hr
    have hc0 : 0 < c.length := List.length_pos.mpr hcne
    obtain ⟨t₀, ht₀, ht₀id, _⟩ := hcyc 0 hc0
    have hB0 : B t₀.id := ⟨0, hc0, ht₀id.symm⟩
    have hid₀ : t₀.id ∈ execIds sf := by
      rw [execIds]
      have : t₀ ∈ sf.execs.map TaskExecution.task := invf.tasksEq ▸ ht₀
      obtain ⟨te, hte, rfl⟩ := List.mem_map.mp this
      exact List.mem_map_of_mem (fun te => te.task.id) hte
    exact tasksExecuted_lt hnodup invf hid₀ (hblocked t₀.id hB0).1
  · -- a dangling dependency: its task can never run or be accounted for
    set B : String → Prop := fun id => id = t.id with hBdef
    have hB : ∀ t'' ∈ tasks, B t''.id → ∃ d' ∈ t''.dependencies,
        B d' ∨ ∀ t' ∈ tasks, t'.id ≠ d' := by
      intro t'' ht'' hBt
      have : t'' = t := task_uniq hnodup ht'' ht hBt
      subst this
      exact ⟨d, hd, Or.inr hdang⟩
    have hblocked := runLoop_blocked env hnodup B hB (4 * tasks.length + 1)
      (initState tasks) (initState_inv tasks maxC)
      (fun id _ => ⟨by simp [initState], by simp [initState]⟩) _ _ _ hr
    have hid₀ : t.id ∈ execIds sf := by
      rw [execIds]
      have : t ∈ sf.execs.map TaskExecution.task := invf.tasksEq ▸ ht
      obtain ⟨te, hte, rfl⟩ := List.mem_map.mp this
      exact List.mem_map_of_mem (fun te => te.task.id) hte
    exact tasksExecuted_lt hnodup invf hid₀ (hblocked t.id rfl).1

/-- C4 witness: the two-task cycle under the default ceiling. -/
theorem c4_bad_graphs_exit_incomplete_witness :
    (runLoop 3 failProbeEnv (4 * [cycleTaskA, cycleTaskB].length + 1)
        (initState [cycleTaskA, cycleTaskB])).2.2 = true ∧
    tasksExecuted (runLoop 3 failProbeEnv (4 * [cycleTaskA, cycleTaskB].length + 1)
        (initState [cycleTaskA, cycleTaskB])).2.1 < [cycleTaskA, cycleTaskB].length :=
  c4_bad_graphs_exit_incomplete [cycleTaskA, cycleTaskB] 3 failProbeEnv
    (by decide) (by decide)
    (Or.inl ⟨["a", "b"], by decide, by decide⟩)
